import Mathlib

/-!
Verification development for the ohmygpu inference server.

The definitions below are a shallow embedding of the core of the repository:
the candle runtime (`src/crates/runtimes/runtime_candle`), the daemon's model
lifecycle manager (`src/daemon/src/state.rs`), and the Z-Image diffusion
pipeline (`src/crates/runtimes/runtime_diffusion/src/zimage.rs`).

Conventions of the embedding:
- machine floats are modelled as exact rationals where the properties under
  study are arithmetic-generic (sampling loop structure, determinism,
  cumulative-probability bounds), and as an explicit `Fl` datatype with
  NaN and infinities where NaN propagation itself is the property;
- the transcendental `exp` is an explicit function parameter `e : ℚ → ℚ`
  (every theorem quantifies over it);
- fallible external calls (file system, device, tokenizer) are explicit
  `Except` values or `Except`-returning function parameters;
- async methods are modelled as pure state transformers; the streaming
  channel is modelled as the list of tokens the producer sends.
-/

/-! ## Runtime API types (src/crates/runtimes/runtime_api/src/lib.rs) -/

inductive RuntimeStatus
  | Unloaded
  | Loading
  | Ready
  | Error
deriving DecidableEq

structure RuntimeConfig where
  modelPath : String
  gpuId : Option Nat
  vramBudgetMb : Option Nat
  cpuThreads : Option Nat
deriving DecidableEq

structure ChatMessage where
  role : String
  content : String
deriving DecidableEq

structure ChatRequest where
  messages : List ChatMessage
  maxTokens : Nat
  temperature : ℚ
  stream : Bool
deriving DecidableEq

/-- Response from chat completion. Decoded text is modelled as a list of
characters (Rust `String` viewed as a sequence of its units). -/
structure ChatResponse where
  content : List Char
  tokensUsed : Nat
  finishReason : String
deriving DecidableEq

/-- A single token of the streamed sequence. -/
structure ChatToken where
  content : List Char
  finishReason : Option String
deriving DecidableEq

/-! ## The loaded text model (src/crates/runtimes/runtime_candle/src/model.rs)

`LoadedModel` carries the external capabilities the decode loop consumes:
the tokenizer (`encode`/`decode`, both fallible in the source), the
backend forward pass (`fwd`, giving the last position's logits for the
current token sequence), and the EOS id looked up from the vocabulary.

Scope of the purity convention: the source's forward pass mutates per-model
backend state (the `Mutex`'d llama cache / phi model). `fwd` here is the
forward pass as determined by the backend state at entry of ONE call, so
this structure is used only for single-call properties (loop structure,
counts, path equivalence within one call), where that state is fixed. For
cross-call properties the stateful embedding `StatefulModel` below threads
the mutated cache explicitly. -/

structure LoadedModel where
  encode : String → Except String (List Nat)
  decode : List Nat → Except String (List Char)
  fwd : List Nat → List ℚ
  eosTokenId : Option Nat

/-! ## Candle runtime state (src/crates/runtimes/runtime_candle/src/lib.rs) -/

structure CandleRuntime where
  status : RuntimeStatus
  config : Option RuntimeConfig
  model : Option LoadedModel

/-- `CandleRuntime::new`: status starts `Unloaded`, no config, no model. -/
def CandleRuntime.new : CandleRuntime :=
  { status := RuntimeStatus.Unloaded, config := none, model := none }

/-- `CandleRuntime::load`. The source sets `self.status = Loading`, then runs
the fallible device selection and `LoadedModel::load` (abstracted here as the
`outcome` argument, since they depend on the file system and device); every
failure propagates with `?` and leaves `status` as last assigned; on success
it stores the model and config and sets `status = Ready`. No path assigns
`RuntimeStatus::Error`. -/
def CandleRuntime.load (rt : CandleRuntime) (config : RuntimeConfig)
    (outcome : Except String LoadedModel) : Except String Unit × CandleRuntime :=
  let rt1 := { rt with status := RuntimeStatus.Loading }
  match outcome with
  | Except.error e => (Except.error e, rt1)
  | Except.ok m =>
      (Except.ok (),
        { rt1 with model := some m, config := some config, status := RuntimeStatus.Ready })

/-- `CandleRuntime::unload`: clears model and config, sets `Unloaded`; never
fails. -/
def CandleRuntime.unload (rt : CandleRuntime) : Except String Unit × CandleRuntime :=
  (Except.ok (),
    { rt with model := none, config := none, status := RuntimeStatus.Unloaded })

/-! ## Daemon lifecycle manager, sequential semantics (src/daemon/src/state.rs) -/

structure AppState where
  registry : List (String × String)
  runtime : CandleRuntime
  current : Option String

/-- `AppState::load_model`, single-caller semantics. The fallible candle load
is abstracted by `outcome` exactly as in `CandleRuntime.load`. Mirrors the
source block by block: fast path, registry lookup, unload-if-ready, load,
then update of the selected-name cell. -/
def AppState.loadModel (st : AppState) (modelName : String)
    (outcome : Except String LoadedModel) : Except String Unit × AppState :=
  if st.current = some modelName ∧ st.runtime.status = RuntimeStatus.Ready then
    (Except.ok (), st)
  else
    match st.registry.lookup modelName with
    | none => (Except.error ("Model '" ++ modelName ++ "' not found in registry"), st)
    | some path =>
        let rt0 :=
          if st.runtime.status = RuntimeStatus.Ready then (st.runtime.unload).2 else st.runtime
        let config : RuntimeConfig :=
          { modelPath := path, gpuId := some 0, vramBudgetMb := none, cpuThreads := none }
        match rt0.load config outcome with
        | (Except.error e, rt1) => (Except.error e, { st with runtime := rt1 })
        | (Except.ok _, rt1) =>
            (Except.ok (), { st with runtime := rt1, current := some modelName })

/-! ## Lifecycle manager, concurrent semantics (src/daemon/src/state.rs)

`AppState::load_model` is a sequence of separately lock-guarded blocks, so
under concurrency each block is atomic but the whole method is not. We model
two callers of `load_model name` as threads of an interleaved transition
system; one transition corresponds to one lock-guarded block of the source
(registry lookup and load are assumed to succeed, matching the claim's
scenario). `ready` models `runtime.status() == Ready`, `current` the
selected-name cell, `loads` counts `runtime.load()` invocations. -/

inductive LmPC
  | fastPath
  | registryGet
  | unloadOld
  | loadNew
  | setCurrent
  | finished
deriving DecidableEq

structure LmThread where
  pc : LmPC
  didLoad : Bool
deriving DecidableEq

structure LmShared where
  ready : Bool
  current : Option String
  loads : Nat
deriving DecidableEq

structure LmSys where
  shared : LmShared
  t1 : LmThread
  t2 : LmThread
deriving DecidableEq

/-- One atomic step of a thread running `load_model name`:
- `fastPath`: read `current` and status; return (finish) if the model is
  already selected and Ready, else proceed;
- `registryGet`: read-only registry lookup (assumed to find the name);
- `unloadOld`: writer-locked block that unloads if Ready;
- `loadNew`: writer-locked block that runs `load` (assumed successful:
  status becomes Ready) — counted in `loads`;
- `setCurrent`: writer-locked update of the selected-name cell. -/
def lmStep (name : String) (t : LmThread) (s : LmShared) : LmThread × LmShared :=
  match t.pc with
  | LmPC.fastPath =>
      if s.current = some name ∧ s.ready then ({ t with pc := LmPC.finished }, s)
      else ({ t with pc := LmPC.registryGet }, s)
  | LmPC.registryGet => ({ t with pc := LmPC.unloadOld }, s)
  | LmPC.unloadOld =>
      ({ t with pc := LmPC.loadNew }, if s.ready then { s with ready := false } else s)
  | LmPC.loadNew =>
      ({ t with pc := LmPC.setCurrent, didLoad := true },
        { s with ready := true, loads := s.loads + 1 })
  | LmPC.setCurrent => ({ t with pc := LmPC.finished }, { s with current := some name })
  | LmPC.finished => (t, s)

/-- Scheduler step: `true` lets thread 1 act, `false` thread 2. -/
def lmStepSys (name : String) (s : LmSys) (who : Bool) : LmSys :=
  if who then
    let (t', sh') := lmStep name s.t1 s.shared
    { s with t1 := t', shared := sh' }
  else
    let (t', sh') := lmStep name s.t2 s.shared
    { s with t2 := t', shared := sh' }

/-- Run a schedule (list of thread choices) from a state. -/
def lmRun (name : String) (sched : List Bool) (s : LmSys) : LmSys :=
  sched.foldl (lmStepSys name) s

/-- Initial state for the concurrent scenario: nothing loaded, no model
selected, both callers about to enter `load_model name`. -/
def lmInit : LmSys :=
  { shared := { ready := false, current := none, loads := 0 },
    t1 := { pc := LmPC.fastPath, didLoad := false },
    t2 := { pc := LmPC.fastPath, didLoad := false } }

/-! ## Sampler over exact rationals (src/crates/runtimes/runtime_candle/src/sampling.rs)

The f32 arithmetic of the sampler is modelled as exact rational arithmetic;
`exp` is the explicit parameter `e`. The xorshift64 PRNG is bit-exact; the
final float conversion `state as f64 / u64::MAX as f64` is modelled as the
exact rational quotient. -/

structure Sampler where
  temperature : ℚ
  topP : ℚ
  rngState : Nat
deriving DecidableEq

/-- `Sampler::new`: floors the temperature at 0.001 to avoid division by
zero; stores the nucleus mass and the seed as the initial PRNG state. -/
def Sampler.new (temperature topP : ℚ) (seed : Nat) : Sampler :=
  { temperature := max temperature (1/1000), topP := topP, rngState := seed }

/-- One xorshift64 update on a 64-bit state (wrapping shifts and xors). -/
def xorshift64 (x0 : Nat) : Nat :=
  let x1 := (x0 ^^^ ((x0 <<< 13) % 2 ^ 64)) % 2 ^ 64
  let x2 := (x1 ^^^ (x1 >>> 7)) % 2 ^ 64
  (x2 ^^^ ((x2 <<< 17) % 2 ^ 64)) % 2 ^ 64

/-- `Sampler::random_f32`: advance the PRNG, return the state divided by
`u64::MAX` (a value in `[0, 1)`), together with the advanced sampler. -/
def Sampler.random (s : Sampler) : Sampler × ℚ :=
  let st := xorshift64 s.rngState
  ({ s with rngState := st }, (st : ℚ) / ((2 ^ 64 - 1 : ℕ) : ℚ))

/-- Numerically-stable softmax of the `Sampler::sample` body: subtract the
running `f32::max` fold (which on a nonempty list is the list maximum; the
`NEG_INFINITY` initial accumulator never survives a nonempty fold),
exponentiate via `e`, normalize by the sum. -/
def softmax (e : ℚ → ℚ) (scaled : List ℚ) : List ℚ :=
  let m := match scaled with
    | [] => 0
    | x :: xs => xs.foldl max x
  let exps := scaled.map fun x => e (x - m)
  let sum := exps.foldl (· + ·) 0
  exps.map (· / sum)

/-- Stable insertion (descending by probability) used by `sortDesc`. -/
def insertDesc (x : Nat × ℚ) : List (Nat × ℚ) → List (Nat × ℚ)
  | [] => [x]
  | y :: ys => if x.2 > y.2 then x :: y :: ys else y :: insertDesc x ys

/-- `indexed.sort_by(|a, b| b.1.partial_cmp(&a.1).unwrap())`: stable sort of
(index, probability) pairs by descending probability. On genuine probability
vectors (no NaN) `partial_cmp` is total, so the sort is an ordinary stable
descending sort. -/
def sortDesc (l : List (Nat × ℚ)) : List (Nat × ℚ) :=
  l.foldl (fun acc x => insertDesc x acc) []

/-- The cutoff scan of `sample_top_p`: walk the sorted pairs accumulating
`cumsum`; `some c` means the loop broke at prefix length `c` (first prefix
whose cumulative mass reaches `p`); `none` means the mass never reached `p`
(the source then keeps the whole list). -/
def cutoffLen (p : ℚ) : ℚ → List (Nat × ℚ) → Option Nat
  | _, [] => none
  | acc, x :: xs =>
      if p ≤ acc + x.2 then some 1 else (cutoffLen p (acc + x.2) xs).map Nat.succ

/-- The candidate set retained by `sample_top_p`: the cutoff-length front
segment of the probability-descending sort of the indexed distribution. -/
def topPCandidates (p : ℚ) (probs : List ℚ) : List (Nat × ℚ) :=
  let indexed := sortDesc probs.enum
  indexed.take ((cutoffLen p 0 indexed).getD indexed.length)

/-- The selection scan shared by `sample_top_p` and `sample_multinomial`:
first pair whose running cumulative probability strictly exceeds the draw. -/
def pickFirst (r : ℚ) : ℚ → List (Nat × ℚ) → Option Nat
  | _, [] => none
  | acc, ip :: rest => if r < acc + ip.2 then some ip.1 else pickFirst r (acc + ip.2) rest

/-- `Sampler::sample_top_p`: renormalize the retained candidates, draw, pick
the first candidate whose cumulative normalized probability exceeds the
draw, defaulting to the last candidate (or 0 on an empty list). -/
def Sampler.sampleTopP (s : Sampler) (probs : List ℚ) : Sampler × Nat :=
  let candidates := topPCandidates s.topP probs
  let sum := (candidates.map (·.2)).foldl (· + ·) 0
  let normalized := candidates.map fun ip => (ip.1, ip.2 / sum)
  let sr := s.random
  (sr.1, (pickFirst sr.2 0 normalized).getD (((candidates.getLast?).map (·.1)).getD 0))

/-- `Sampler::sample_multinomial`: draw, pick the first index whose running
cumulative probability exceeds the draw, defaulting to the last index. -/
def Sampler.sampleMultinomial (s : Sampler) (probs : List ℚ) : Sampler × Nat :=
  let sr := s.random
  (sr.1, (pickFirst sr.2 0 probs.enum).getD (probs.length - 1))

/-- `Sampler::sample`: temperature scaling, softmax, then nucleus sampling
when `top_p < 1.0`, full multinomial sampling otherwise. -/
def Sampler.sample (e : ℚ → ℚ) (s : Sampler) (logits : List ℚ) : Sampler × Nat :=
  let scaled := logits.map (· / s.temperature)
  let probs := softmax e scaled
  if s.topP < 1 then s.sampleTopP probs else s.sampleMultinomial probs

/-! ## Decode loops (src/crates/runtimes/runtime_candle/src/model.rs)

`LoadedModel::generate` and `LoadedModel::generate_stream` both run up to
`max_tokens` iterations: one forward pass over the current sequence, one
sampler call on the last position's logits; they stop early when the sampled
id equals the EOS id (without appending it). The stream loop additionally
decodes the generated suffix after every appended token and emits the
not-yet-emitted text suffix; the channel is modelled as the returned list of
sent tokens (the consumer is assumed to keep receiving; an error aborts the
loop, which is reported in the second component and sends nothing more). -/

/-- The decode loop of `LoadedModel::generate`, with the remaining step
budget as fuel. Returns the final full token sequence, the count of
generated (appended) tokens, the final sampler state, and the finish
reason. -/
def genLoop (e : ℚ → ℚ) (m : LoadedModel) :
    Nat → Sampler → List Nat → Nat → List Nat × Nat × Sampler × String
  | 0, s, allTokens, generated => (allTokens, generated, s, "length")
  | fuel + 1, s, allTokens, generated =>
      let st := Sampler.sample e s (m.fwd allTokens)
      if some st.2 = m.eosTokenId then (allTokens, generated, st.1, "stop")
      else genLoop e m fuel st.1 (allTokens ++ [st.2]) (generated + 1)

structure GenerationResult where
  text : List Char
  tokensGenerated : Nat
  finishReason : String
deriving DecidableEq

/-- `LoadedModel::generate`: tokenize the prompt, run the decode loop with a
sampler hard-coded to nucleus mass 0.9 and seed 42, decode only the newly
generated ids. -/
def LoadedModel.generate (e : ℚ → ℚ) (m : LoadedModel) (prompt : String)
    (maxTokens : Nat) (temperature : ℚ) : Except String GenerationResult :=
  match m.encode prompt with
  | Except.error err => Except.error ("Tokenization error: " ++ err)
  | Except.ok inputIds =>
      let r := genLoop e m maxTokens (Sampler.new temperature (9/10) 42) inputIds 0
      match m.decode (r.1.drop inputIds.length) with
      | Except.error err => Except.error ("Decode error: " ++ err)
      | Except.ok text => Except.ok { text := text, tokensGenerated := r.2.1, finishReason := r.2.2.2 }

/-- Variant of `LoadedModel.generate` taking the initial sampler explicitly,
used to state that `generate` hard-codes `Sampler.new temperature 0.9 42`. -/
def LoadedModel.generateWith (e : ℚ → ℚ) (m : LoadedModel) (s0 : Sampler)
    (prompt : String) (maxTokens : Nat) : Except String GenerationResult :=
  match m.encode prompt with
  | Except.error err => Except.error ("Tokenization error: " ++ err)
  | Except.ok inputIds =>
      let r := genLoop e m maxTokens s0 inputIds 0
      match m.decode (r.1.drop inputIds.length) with
      | Except.error err => Except.error ("Decode error: " ++ err)
      | Except.ok text => Except.ok { text := text, tokensGenerated := r.2.1, finishReason := r.2.2.2 }

/-- The decode loop of `LoadedModel::generate_stream`. `promptLen` is the
prompt length (the generated suffix starts there), `prevLen` the length of
the already-emitted text. Returns the list of tokens pushed into the channel
and `some err` when a decode error aborted the loop (the source logs the
error in the spawned task; nothing further is sent — in particular no token
carrying a finish reason). -/
def genStreamLoop (e : ℚ → ℚ) (m : LoadedModel) (promptLen : Nat) :
    Nat → Sampler → List Nat → Nat → List ChatToken × Option String
  | 0, _, _, _ => ([{ content := [], finishReason := some "length" }], none)
  | fuel + 1, s, allTokens, prevLen =>
      let st := Sampler.sample e s (m.fwd allTokens)
      if some st.2 = m.eosTokenId then ([{ content := [], finishReason := some "stop" }], none)
      else
        match m.decode ((allTokens ++ [st.2]).drop promptLen) with
        | Except.error err => ([], some ("Decode error: " ++ err))
        | Except.ok current =>
            if prevLen < current.length then
              let rest := genStreamLoop e m promptLen fuel st.1 (allTokens ++ [st.2]) current.length
              ({ content := current.drop prevLen, finishReason := none } :: rest.1, rest.2)
            else
              genStreamLoop e m promptLen fuel st.1 (allTokens ++ [st.2]) prevLen

/-- `LoadedModel::generate_stream`: tokenize, then run the streaming decode
loop with the same hard-coded sampler (nucleus mass 0.9, seed 42) as
`generate`. A tokenization failure emits nothing. -/
def LoadedModel.generateStream (e : ℚ → ℚ) (m : LoadedModel) (prompt : String)
    (maxTokens : Nat) (temperature : ℚ) : List ChatToken × Option String :=
  match m.encode prompt with
  | Except.error err => ([], some ("Tokenization error: " ++ err))
  | Except.ok inputIds =>
      genStreamLoop e m inputIds.length maxTokens (Sampler.new temperature (9/10) 42) inputIds 0

/-- Variant of `LoadedModel.generateStream` taking the initial sampler
explicitly. -/
def LoadedModel.generateStreamWith (e : ℚ → ℚ) (m : LoadedModel) (s0 : Sampler)
    (prompt : String) (maxTokens : Nat) : List ChatToken × Option String :=
  match m.encode prompt with
  | Except.error err => ([], some ("Tokenization error: " ++ err))
  | Except.ok inputIds => genStreamLoop e m inputIds.length maxTokens s0 inputIds 0

/-! ## Generation trace

Both loops are deterministic, so the run is fully described by the state
after `k` non-EOS steps; `sampledAt k` is the id the sampler produces at
step `k` of that trace. -/

/-- Sampler state and token sequence after `k` appended tokens, starting
from the hard-coded `Sampler.new temperature 0.9 42` on the prompt ids. -/
def traceStep (e : ℚ → ℚ) (m : LoadedModel) (temperature : ℚ) (promptIds : List Nat) :
    Nat → Sampler × List Nat
  | 0 => (Sampler.new temperature (9/10) 42, promptIds)
  | k + 1 =>
      let pr := traceStep e m temperature promptIds k
      let st := Sampler.sample e pr.1 (m.fwd pr.2)
      (st.1, pr.2 ++ [st.2])

/-- The id sampled at step `k` of the trace. -/
def sampledAt (e : ℚ → ℚ) (m : LoadedModel) (temperature : ℚ) (promptIds : List Nat)
    (k : Nat) : Nat :=
  (Sampler.sample e (traceStep e m temperature promptIds k).1
    (m.fwd (traceStep e m temperature promptIds k).2)).2

/-- Decoded text of the first `k` generated tokens of the trace (default
`[]` if the decoder fails there). -/
def textAt (e : ℚ → ℚ) (m : LoadedModel) (temperature : ℚ) (promptIds : List Nat)
    (k : Nat) : List Char :=
  ((m.decode ((traceStep e m temperature promptIds k).2.drop promptIds.length)).toOption).getD []

/-- Number of tokens the loop appends within the next `n` steps starting at
trace position `k`: it advances until the budget `n` is exhausted or the
sampled id is the EOS id. -/
def runLen (e : ℚ → ℚ) (m : LoadedModel) (temperature : ℚ) (promptIds : List Nat) :
    Nat → Nat → Nat
  | _, 0 => 0
  | k, n + 1 =>
      if some (sampledAt e m temperature promptIds k) = m.eosTokenId then 0
      else runLen e m temperature promptIds (k + 1) n + 1

/-! ## Runtime-level chat entry points (src/crates/runtimes/runtime_candle/src/lib.rs) -/

/-- `build_chat_prompt`: Llama-style chat template. -/
def buildChatPrompt (messages : List ChatMessage) : String :=
  messages.foldl
    (fun acc msg =>
      match msg.role with
      | "system" => acc ++ "<<SYS>>\n" ++ msg.content ++ "\n<</SYS>>\n\n"
      | "user" => acc ++ "[INST] " ++ msg.content ++ " [/INST]"
      | "assistant" => acc ++ " " ++ msg.content ++ " "
      | _ => acc ++ msg.content)
    ""

/-- `CandleRuntime::chat`: requires status `Ready` and a present model, then
runs `LoadedModel::generate` on the built prompt. -/
def CandleRuntime.chat (e : ℚ → ℚ) (rt : CandleRuntime) (req : ChatRequest) :
    Except String ChatResponse :=
  if rt.status ≠ RuntimeStatus.Ready then Except.error "Model not loaded"
  else
    match rt.model with
    | none => Except.error "Model not loaded"
    | some m =>
        match m.generate e (buildChatPrompt req.messages) req.maxTokens req.temperature with
        | Except.error err => Except.error err
        | Except.ok r =>
            Except.ok { content := r.text, tokensUsed := r.tokensGenerated,
                        finishReason := r.finishReason }

/-- `CandleRuntime::chat_stream`: requires status `Ready`, then spawns the
producer. The result is the full sequence of tokens the producer sends (a
generation error inside the spawned task is only logged; the tokens already
sent stand and nothing further is emitted; an absent model emits nothing). -/
def CandleRuntime.chatStream (e : ℚ → ℚ) (rt : CandleRuntime) (req : ChatRequest) :
    Except String (List ChatToken × Option String) :=
  if rt.status ≠ RuntimeStatus.Ready then Except.error "Model not loaded"
  else
    Except.ok
      (match rt.model with
       | none => ([], none)
       | some m =>
           m.generateStream e (buildChatPrompt req.messages) req.maxTokens req.temperature)

/-- Concatenation of the content deltas of a streamed token sequence. -/
def concatContent (l : List ChatToken) : List Char :=
  (l.map (·.content)).flatten

/-- A streamed sequence terminates properly when its last token carries a
finish reason that is "stop" or "length". -/
def endsWithFinish (l : List ChatToken) : Prop :=
  ∃ tok, l.getLast? = some tok ∧
    (tok.finishReason = some "stop" ∨ tok.finishReason = some "length")

/-! ## Z-Image diffusion pipeline (src/crates/runtimes/runtime_diffusion/src/zimage.rs)

`generate_internal` is embedded as a pure function that, alongside its
result, records the trace of device-compute effects it performs, in order:
text-encoder forward passes, noise initialization, denoising-transformer
forward passes, and the VAE decode. The numeric content of the external
candle modules (encoder, transformer, VAE, scheduler) is abstracted into
function fields of the pipeline structure; the control flow, the order of
effects, and the dimension validation are the source's. -/

structure ImageGenRequest where
  prompt : String
  negativePrompt : Option String
  width : Nat
  height : Nat
  steps : Nat
  guidanceScale : ℚ
  seed : Option Nat

inductive DiffEffect
  | textEncoderForward
  | noiseInit
  | transformerForward
  | vaeDecode
deriving DecidableEq

inductive GenErr
  | tokenization (msg : String)
  | invalidDimensions (width height : Nat)
deriving DecidableEq

structure ZImagePipeline where
  encode : String → Except String (List Nat)
  textEncoder : List Nat → List ℚ
  transformerFwd : List ℚ → ℚ → List ℚ → List ℚ
  schedStep : List ℚ → List ℚ → List ℚ
  timestepAt : Nat → ℚ
  vaeDec : List ℚ → List ℚ
  getNoise : Nat → Nat → List ℚ
  patchSize : Nat

/-- `format_prompt`: Qwen3 chat template wrapper. -/
def formatPrompt (prompt : String) : String :=
  "<|im_start|>user\n" ++ prompt ++ "<|im_end|>\n<|im_start|>assistant\n"

/-- Z-Image scheduler constants and `calculate_shift`: linear interpolation
of the shift between base and max based on the patch-token count. -/
def calculateShift (imageSeqLen : Nat) : ℚ :=
  let baseSeqLen : ℚ := 256
  let maxSeqLen : ℚ := 4096
  let baseShift : ℚ := 1/2
  let maxShift : ℚ := 23/20
  let m := (maxShift - baseShift) / (maxSeqLen - baseSeqLen)
  (imageSeqLen : ℚ) * m + (baseShift - baseSeqLen * m)

/-- Classifier-free guidance combination `neg + g * (cond - neg)`. -/
def cfgCombine (g : ℚ) (cond neg : List ℚ) : List ℚ :=
  (cond.zip neg).map fun cn => cn.2 + g * (cn.1 - cn.2)

/-- The denoising loop: `steps` sequential iterations; one conditional
transformer pass, a second unconditional pass when guidance is enabled and a
negative embedding is present, the Z-Image sign flip, one scheduler step. -/
def denoiseLoop (pl : ZImagePipeline) (g : ℚ) (capFeats : List ℚ)
    (negFeats : Option (List ℚ)) :
    Nat → Nat → List ℚ → List ℚ × List DiffEffect
  | _, 0, latents => (latents, [])
  | stepIdx, n + 1, latents =>
      let t := pl.timestepAt stepIdx
      let condPred := pl.transformerFwd latents t capFeats
      let (pred, fx) :=
        if 1 < g then
          match negFeats with
          | some nf =>
              let negPred := pl.transformerFwd latents t nf
              (cfgCombine g condPred negPred,
                [DiffEffect.transformerForward, DiffEffect.transformerForward])
          | none => (condPred, [DiffEffect.transformerForward])
        else (condPred, [DiffEffect.transformerForward])
      let pred := pred.map (fun x => -x)
      let next := denoiseLoop pl g capFeats negFeats (stepIdx + 1) n (pl.schedStep pred latents)
      (next.1, fx ++ next.2)

/-- The negative-prompt conditioning stage of `generate_internal`: when
`guidance_scale > 1.0` and a nonempty negative prompt is present, tokenize
and text-encode it (one extra text-encoder forward pass, recorded in the
trace); otherwise no unconditional embedding. -/
def ZImagePipeline.negStage (pl : ZImagePipeline) (req : ImageGenRequest) :
    Except GenErr (Option (List ℚ)) × List DiffEffect :=
  match req.negativePrompt with
  | some negPrompt =>
      if negPrompt ≠ "" ∧ 1 < req.guidanceScale then
        match pl.encode (formatPrompt negPrompt) with
        | Except.error msg => (Except.error (GenErr.tokenization msg), [])
        | Except.ok negTokens =>
            (Except.ok (some (pl.textEncoder negTokens)), [DiffEffect.textEncoderForward])
      else (Except.ok none, [])
  | none => (Except.ok none, [])

/-- `ZImagePipeline::generate_internal`. Faithful order of operations:
tokenize and text-encode the prompt (and, when `guidance_scale > 1.0` with a
nonempty negative prompt, the negative prompt), only then validate that both
dimensions are divisible by 16, then derive the latent grid, compute the
shift, set timesteps, draw the initial noise, run the denoising loop, and
decode through the VAE. Returns the pixel buffer (flattened) or the first
error, together with the effect trace up to that point. -/
def ZImagePipeline.generateInternal (pl : ZImagePipeline) (req : ImageGenRequest) :
    Except GenErr (List ℚ) × List DiffEffect :=
  match pl.encode (formatPrompt req.prompt) with
  | Except.error msg => (Except.error (GenErr.tokenization msg), [])
  | Except.ok tokens =>
      let capFeats := pl.textEncoder tokens
      match pl.negStage req with
      | (Except.error err, fx) => (Except.error err, DiffEffect.textEncoderForward :: fx)
      | (Except.ok negFeats, fx) =>
          let fx0 := DiffEffect.textEncoderForward :: fx
          if req.height % 16 ≠ 0 ∨ req.width % 16 ≠ 0 then
            (Except.error (GenErr.invalidDimensions req.width req.height), fx0)
          else
            let latentH := 2 * (req.height / 16)
            let latentW := 2 * (req.width / 16)
            let imageSeqLen := (latentH / pl.patchSize) * (latentW / pl.patchSize)
            let _mu := calculateShift imageSeqLen
            let latents := pl.getNoise latentH latentW
            let loop := denoiseLoop pl req.guidanceScale capFeats negFeats 0 req.steps latents
            (Except.ok (pl.vaeDec loop.1),
              fx0 ++ [DiffEffect.noiseInit] ++ loop.2 ++ [DiffEffect.vaeDecode])

/-! ## Explicit float model with NaN (src/crates/runtimes/runtime_candle/src/sampling.rs)

To settle the claim about malformed logits, the f32 values are modelled with
explicit NaN and infinities. Finite values are exact rationals (signed-zero
subtleties are not distinguished); the operations below follow IEEE-754/Rust
semantics on the NaN and infinity cases, which are the cases the claim
exercises. -/

inductive Fl
  | nan
  | neginf
  | posinf
  | fin (q : ℚ)
deriving DecidableEq

/-- Rust `f32::max` (as used in the fold): ignores NaN, returns the other
operand. -/
def Fl.fmax : Fl → Fl → Fl
  | Fl.nan, y => y
  | x, Fl.nan => x
  | Fl.neginf, y => y
  | x, Fl.neginf => x
  | Fl.posinf, _ => Fl.posinf
  | _, Fl.posinf => Fl.posinf
  | Fl.fin a, Fl.fin b => Fl.fin (max a b)

/-- IEEE subtraction: NaN propagates; `-∞ - -∞` and `+∞ - +∞` are NaN. -/
def Fl.fsub : Fl → Fl → Fl
  | Fl.nan, _ => Fl.nan
  | _, Fl.nan => Fl.nan
  | Fl.neginf, Fl.neginf => Fl.nan
  | Fl.posinf, Fl.posinf => Fl.nan
  | Fl.neginf, _ => Fl.neginf
  | Fl.posinf, _ => Fl.posinf
  | Fl.fin _, Fl.neginf => Fl.posinf
  | Fl.fin _, Fl.posinf => Fl.neginf
  | Fl.fin a, Fl.fin b => Fl.fin (a - b)

/-- IEEE addition (for the sums): NaN propagates; `+∞ + -∞` is NaN. -/
def Fl.fadd : Fl → Fl → Fl
  | Fl.nan, _ => Fl.nan
  | _, Fl.nan => Fl.nan
  | Fl.posinf, Fl.neginf => Fl.nan
  | Fl.neginf, Fl.posinf => Fl.nan
  | Fl.posinf, _ => Fl.posinf
  | _, Fl.posinf => Fl.posinf
  | Fl.neginf, _ => Fl.neginf
  | _, Fl.neginf => Fl.neginf
  | Fl.fin a, Fl.fin b => Fl.fin (a + b)

/-- IEEE division: NaN propagates; `±∞ / ±∞` and `0/0` are NaN; division of
a nonzero finite value by zero gives a signed infinity. -/
def Fl.fdiv : Fl → Fl → Fl
  | Fl.nan, _ => Fl.nan
  | _, Fl.nan => Fl.nan
  | Fl.posinf, Fl.posinf => Fl.nan
  | Fl.posinf, Fl.neginf => Fl.nan
  | Fl.neginf, Fl.posinf => Fl.nan
  | Fl.neginf, Fl.neginf => Fl.nan
  | Fl.posinf, Fl.fin b => if b < 0 then Fl.neginf else Fl.posinf
  | Fl.neginf, Fl.fin b => if b < 0 then Fl.posinf else Fl.neginf
  | Fl.fin _, Fl.posinf => Fl.fin 0
  | Fl.fin _, Fl.neginf => Fl.fin 0
  | Fl.fin a, Fl.fin b =>
      if b = 0 then
        if a = 0 then Fl.nan else if a < 0 then Fl.neginf else Fl.posinf
      else Fl.fin (a / b)

/-- `exp` on the float model: NaN propagates, `exp(-∞) = 0`, `exp(+∞) = +∞`;
finite values through the abstract `e`. -/
def Fl.fexp (e : ℚ → ℚ) : Fl → Fl
  | Fl.nan => Fl.nan
  | Fl.neginf => Fl.fin 0
  | Fl.posinf => Fl.posinf
  | Fl.fin q => Fl.fin (e q)

/-- Strict `<` on floats: any comparison with NaN is false. -/
def Fl.flt : Fl → Fl → Bool
  | Fl.nan, _ => false
  | _, Fl.nan => false
  | Fl.neginf, Fl.neginf => false
  | Fl.neginf, _ => true
  | _, Fl.neginf => false
  | Fl.posinf, _ => false
  | Fl.fin _, Fl.posinf => true
  | Fl.fin a, Fl.fin b => decide (a < b)

/-- `>=` on floats: any comparison with NaN is false. -/
def Fl.fge (x y : Fl) : Bool :=
  match x, y with
  | Fl.nan, _ => false
  | _, Fl.nan => false
  | _, _ => !(Fl.flt x y)

/-- `partial_cmp` is `none` exactly when one side is NaN. -/
def Fl.isNan : Fl → Bool
  | Fl.nan => true
  | _ => false

/-- Stable descending insertion on (index, probability) pairs over the float
order (NaN-free inputs only; see `flSortDesc`). -/
def flInsertDesc (x : Nat × Fl) : List (Nat × Fl) → List (Nat × Fl)
  | [] => [x]
  | y :: ys => if Fl.flt y.2 x.2 then x :: y :: ys else y :: flInsertDesc x ys

/-- `indexed.sort_by(|a, b| b.1.partial_cmp(&a.1).unwrap())` on the float
model. Rust's stable slice sort compares every adjacent pair while detecting
runs, so any NaN in a slice of length ≥ 2 reaches `Option::unwrap` on `None`
and panics; otherwise `partial_cmp` is total and the sort is an ordinary
stable descending sort. Panics are modelled as `Except.error`. -/
def flSortDesc (l : List (Nat × Fl)) : Except String (List (Nat × Fl)) :=
  if 2 ≤ l.length ∧ l.any (fun ip => ip.2.isNan) then
    Except.error "panicked: Option::unwrap() on a None value (partial_cmp)"
  else Except.ok (l.foldl (fun acc x => flInsertDesc x acc) [])

/-- The cutoff scan of `sample_top_p` on the float model (`cumsum >= top_p`
with float comparison: false on NaN, so a NaN cumulative sum never stops the
scan and the whole list is kept). -/
def flCutoffLen (p : ℚ) : Fl → List (Nat × Fl) → Option Nat
  | _, [] => none
  | acc, x :: xs =>
      if (Fl.fadd acc x.2).fge (Fl.fin p) then some 1
      else (flCutoffLen p (Fl.fadd acc x.2) xs).map Nat.succ

/-- The selection scan on the float model (`r < cumsum`, false on NaN). -/
def flPickFirst (r : ℚ) : Fl → List (Nat × Fl) → Option Nat
  | _, [] => none
  | acc, ip :: rest =>
      if Fl.flt (Fl.fin r) (Fl.fadd acc ip.2) then some ip.1
      else flPickFirst r (Fl.fadd acc ip.2) rest

structure FlSampler where
  temperature : ℚ
  topP : ℚ
  rngState : Nat
deriving DecidableEq

def FlSampler.new (temperature topP : ℚ) (seed : Nat) : FlSampler :=
  { temperature := max temperature (1/1000), topP := topP, rngState := seed }

def FlSampler.random (s : FlSampler) : FlSampler × ℚ :=
  let st := xorshift64 s.rngState
  ({ s with rngState := st }, (st : ℚ) / ((2 ^ 64 - 1 : ℕ) : ℚ))

/-- `Sampler::sample_top_p` on the float model; the sort may panic. -/
def FlSampler.sampleTopP (s : FlSampler) (probs : List Fl) :
    Except String (FlSampler × Nat) :=
  match flSortDesc probs.enum with
  | Except.error msg => Except.error msg
  | Except.ok indexed =>
      let cut := (flCutoffLen s.topP (Fl.fin 0) indexed).getD indexed.length
      let candidates := indexed.take cut
      let sum := (candidates.map (·.2)).foldl Fl.fadd (Fl.fin 0)
      let normalized := candidates.map fun ip => (ip.1, ip.2.fdiv sum)
      let (s', r) := s.random
      Except.ok
        (s', (flPickFirst r (Fl.fin 0) normalized).getD
          (((candidates.getLast?).map (·.1)).getD 0))

/-- `Sampler::sample_multinomial` on the float model: never panics; a NaN
cumulative sum makes every comparison false, so the scan falls through to
the last index. -/
def FlSampler.sampleMultinomial (s : FlSampler) (probs : List Fl) : FlSampler × Nat :=
  let (s', r) := s.random
  (s', (flPickFirst r (Fl.fin 0) probs.enum).getD (probs.length - 1))

/-- `Sampler::sample` on the float model: temperature scaling, stable
softmax (max-subtraction via the NaN-ignoring `f32::max` fold with a `-∞`
initial accumulator), then the `top_p` dispatch. -/
def FlSampler.sample (e : ℚ → ℚ) (s : FlSampler) (logits : List Fl) :
    Except String (FlSampler × Nat) :=
  let scaled := logits.map fun x => x.fdiv (Fl.fin s.temperature)
  let maxLogit := scaled.foldl Fl.fmax Fl.neginf
  let exps := scaled.map fun x => (x.fsub maxLogit).fexp e
  let sum := exps.foldl Fl.fadd (Fl.fin 0)
  let probs := exps.map fun x => x.fdiv sum
  if s.topP < 1 then s.sampleTopP probs
  else Except.ok (s.sampleMultinomial probs)

/-! ## Concrete instances used by counterexamples and witnesses -/

/-- A loaded text model over a one-token vocabulary: every forward pass
yields the single logit `[0]`, tokenization produces no ids, decoding yields
the empty text; no EOS id, so generation always runs to the budget. -/
def demoModel : LoadedModel :=
  { encode := fun _ => Except.ok [], decode := fun _ => Except.ok [],
    fwd := fun _ => [0], eosTokenId := none }

/-- Like `demoModel` but with EOS id 0: the very first sampled token (the
only vocabulary entry) is the EOS id. -/
def demoModelEos : LoadedModel :=
  { encode := fun _ => Except.ok [], decode := fun _ => Except.ok [],
    fwd := fun _ => [0], eosTokenId := some 0 }

/-- One-token-vocabulary model whose decoder shrinks: one generated token
decodes to "ab", two to "c" (byte-level detokenizers resolve partial
characters this way). -/
def demoModelShrink : LoadedModel :=
  { encode := fun _ => Except.ok [],
    decode := fun l => Except.ok (if l.length = 1 then ['a', 'b'] else ['c']),
    fwd := fun _ => [0], eosTokenId := none }

/-- A model whose tokenizer always fails. -/
def demoModelBadTok : LoadedModel :=
  { encode := fun _ => Except.error "malformed prompt",
    decode := fun _ => Except.ok [], fwd := fun _ => [0], eosTokenId := none }

/-- A ready candle runtime holding the given model. -/
def readyRuntime (m : LoadedModel) : CandleRuntime :=
  { status := RuntimeStatus.Ready, config := none, model := some m }

/-- A demo chat request. -/
def demoRequest (maxTokens : Nat) : ChatRequest :=
  { messages := [{ role := "user", content := "hi" }], maxTokens := maxTokens,
    temperature := 1, stream := false }

/-- A demo Z-Image pipeline with trivial total external capabilities. -/
def zDemoPipeline : ZImagePipeline :=
  { encode := fun _ => Except.ok [1], textEncoder := fun _ => [0],
    transformerFwd := fun _ _ _ => [0], schedStep := fun _ l => l,
    timestepAt := fun _ => 0, vaeDec := fun l => l,
    getNoise := fun _ _ => [0], patchSize := 2 }

/-! ## Stateful backend model (src/crates/runtimes/runtime_candle/src/model.rs)

The source's forward pass mutates per-model state: `ModelType::Llama`
carries a `Mutex<llama::Cache>` created once at load time, `ModelType::Phi`
a `Mutex<phi::Model>` with its internal KV cache, and `LoadedModel::forward`
locks and mutates it on every pass (`&mut cache_guard`); neither `generate`
nor `generate_stream` resets it between calls. The embedding below threads
that cache state `C` explicitly through every forward pass (`fwdc`), the
decode loops, and the runtime, so that cross-call behaviour is modelled:
a second call starts from the cache state the first call left behind. -/

structure StatefulModel (C : Type) where
  encode : String → Except String (List Nat)
  decode : List Nat → Except String (List Char)
  fwdc : C → List Nat → List ℚ × C
  eosTokenId : Option Nat

/-- The decode loop of `LoadedModel::generate` over the stateful backend:
each iteration runs the forward pass (mutating the cache) and then samples;
on EOS the pass has already mutated the cache, as in the source. Returns
the final token sequence, the generated count, the sampler, the finish
reason, and the cache state left behind. -/
def genLoopSt {C : Type} (e : ℚ → ℚ) (m : StatefulModel C) :
    Nat → Sampler → List Nat → Nat → C → List Nat × Nat × Sampler × String × C
  | 0, s, allTokens, generated, c => (allTokens, generated, s, "length", c)
  | fuel + 1, s, allTokens, generated, c =>
      let fc := m.fwdc c allTokens
      let st := Sampler.sample e s fc.1
      if some st.2 = m.eosTokenId then (allTokens, generated, st.1, "stop", fc.2)
      else genLoopSt e m fuel st.1 (allTokens ++ [st.2]) (generated + 1) fc.2

/-- `LoadedModel::generate` over the stateful backend: the sampler is the
hard-coded `Sampler.new temperature 0.9 42`, fresh on every call, but the
cache is whatever the previous calls left (the source never resets it). -/
def generateSt {C : Type} (e : ℚ → ℚ) (m : StatefulModel C) (prompt : String)
    (maxTokens : Nat) (temperature : ℚ) (c : C) : Except String GenerationResult × C :=
  match m.encode prompt with
  | Except.error err => (Except.error ("Tokenization error: " ++ err), c)
  | Except.ok inputIds =>
      let r := genLoopSt e m maxTokens (Sampler.new temperature (9/10) 42) inputIds 0 c
      match m.decode (r.1.drop inputIds.length) with
      | Except.error err => (Except.error ("Decode error: " ++ err), r.2.2.2.2)
      | Except.ok text =>
          (Except.ok { text := text, tokensGenerated := r.2.1, finishReason := r.2.2.2.1 },
            r.2.2.2.2)

/-- Variant of `generateSt` taking the initial sampler explicitly, used to
state that `generateSt` hard-codes `Sampler.new temperature 0.9 42`. -/
def generateStWith {C : Type} (e : ℚ → ℚ) (m : StatefulModel C) (s0 : Sampler)
    (prompt : String) (maxTokens : Nat) (c : C) : Except String GenerationResult × C :=
  match m.encode prompt with
  | Except.error err => (Except.error ("Tokenization error: " ++ err), c)
  | Except.ok inputIds =>
      let r := genLoopSt e m maxTokens s0 inputIds 0 c
      match m.decode (r.1.drop inputIds.length) with
      | Except.error err => (Except.error ("Decode error: " ++ err), r.2.2.2.2)
      | Except.ok text =>
          (Except.ok { text := text, tokensGenerated := r.2.1, finishReason := r.2.2.2.1 },
            r.2.2.2.2)

/-- The decode loop of `LoadedModel::generate_stream` over the stateful
backend. -/
def genStreamLoopSt {C : Type} (e : ℚ → ℚ) (m : StatefulModel C) (promptLen : Nat) :
    Nat → Sampler → List Nat → Nat → C → (List ChatToken × Option String) × C
  | 0, _, _, _, c => (([{ content := [], finishReason := some "length" }], none), c)
  | fuel + 1, s, allTokens, prevLen, c =>
      let fc := m.fwdc c allTokens
      let st := Sampler.sample e s fc.1
      if some st.2 = m.eosTokenId then
        (([{ content := [], finishReason := some "stop" }], none), fc.2)
      else
        match m.decode ((allTokens ++ [st.2]).drop promptLen) with
        | Except.error err => (([], some ("Decode error: " ++ err)), fc.2)
        | Except.ok current =>
            if prevLen < current.length then
              let rest := genStreamLoopSt e m promptLen fuel st.1 (allTokens ++ [st.2])
                current.length fc.2
              (({ content := current.drop prevLen, finishReason := none } :: rest.1.1,
                rest.1.2), rest.2)
            else
              genStreamLoopSt e m promptLen fuel st.1 (allTokens ++ [st.2]) prevLen fc.2

/-- `LoadedModel::generate_stream` over the stateful backend. -/
def generateStreamSt {C : Type} (e : ℚ → ℚ) (m : StatefulModel C) (prompt : String)
    (maxTokens : Nat) (temperature : ℚ) (c : C) : (List ChatToken × Option String) × C :=
  match m.encode prompt with
  | Except.error err => (([], some ("Tokenization error: " ++ err)), c)
  | Except.ok inputIds =>
      genStreamLoopSt e m inputIds.length maxTokens (Sampler.new temperature (9/10) 42)
        inputIds 0 c

/-- Variant of `generateStreamSt` taking the initial sampler explicitly. -/
def generateStreamStWith {C : Type} (e : ℚ → ℚ) (m : StatefulModel C) (s0 : Sampler)
    (prompt : String) (maxTokens : Nat) (c : C) : (List ChatToken × Option String) × C :=
  match m.encode prompt with
  | Except.error err => (([], some ("Tokenization error: " ++ err)), c)
  | Except.ok inputIds =>
      genStreamLoopSt e m inputIds.length maxTokens s0 inputIds 0 c

/-- Candle runtime whose loaded model carries a persistent backend cache of
type `C` (the `Mutex`'d cache of the source, which outlives every chat
call). -/
structure CandleRuntimeSt (C : Type) where
  status : RuntimeStatus
  model : Option (StatefulModel C)
  cache : C

/-- `CandleRuntime::chat` over the stateful backend: requires `Ready`, runs
`generate`, and leaves behind the cache state the generation produced — the
source never resets the cache, so it carries over to the next call. -/
def chatSt {C : Type} (e : ℚ → ℚ) (rt : CandleRuntimeSt C) (req : ChatRequest) :
    Except String ChatResponse × CandleRuntimeSt C :=
  if rt.status ≠ RuntimeStatus.Ready then (Except.error "Model not loaded", rt)
  else
    match rt.model with
    | none => (Except.error "Model not loaded", rt)
    | some m =>
        let r := generateSt e m (buildChatPrompt req.messages) req.maxTokens
          req.temperature rt.cache
        match r.1 with
        | Except.error err => (Except.error err, { rt with cache := r.2 })
        | Except.ok g =>
            (Except.ok { content := g.text, tokensUsed := g.tokensGenerated,
                         finishReason := g.finishReason },
              { rt with cache := r.2 })

/-- `CandleRuntime::chat_stream` over the stateful backend; the runtime
state returned is the one after the spawned producer has run. -/
def chatStreamSt {C : Type} (e : ℚ → ℚ) (rt : CandleRuntimeSt C) (req : ChatRequest) :
    Except String (List ChatToken × Option String) × CandleRuntimeSt C :=
  if rt.status ≠ RuntimeStatus.Ready then (Except.error "Model not loaded", rt)
  else
    match rt.model with
    | none => (Except.ok ([], none), rt)
    | some m =>
        let r := generateStreamSt e m (buildChatPrompt req.messages) req.maxTokens
          req.temperature rt.cache
        (Except.ok r.1, { rt with cache := r.2 })

/-- Abstract exponential that sends 0 to 1 and every other value to 0: the
hardmax instantiation of the softmax (all mass on the argmax logit). -/
def hardmaxE : ℚ → ℚ := fun q => if q = 0 then 1 else 0

/-- Stateful two-token-vocabulary model whose cache state counts the forward
passes performed so far on the loaded model: the very first forward pass
favours token 0, every later one favours token 1 — so a second, identical
call samples a different token than the first. One generated token decodes
to "a", anything else to "b". -/
def demoStateful : StatefulModel Nat :=
  { encode := fun _ => Except.ok [],
    decode := fun l => Except.ok (if l = [0] then ['a'] else ['b']),
    fwdc := fun c _ => (if c = 0 then [10, 0] else [0, 10], c + 1),
    eosTokenId := none }

/-- A ready stateful runtime holding `demoStateful` with a fresh cache. -/
def stRt0 : CandleRuntimeSt Nat :=
  { status := RuntimeStatus.Ready, model := some demoStateful, cache := 0 }

/-! # Theorems -/

/-! ## C1 — status after a failed load -/

/-- C1, counterexample. The claim says a failed `load` leaves the candle
runtime's status `Error`. On a fresh runtime with a failing load outcome the
call returns the error, but the status afterwards is not `Error` (no path in
`CandleRuntime::load` ever assigns `RuntimeStatus::Error`). -/
theorem c1_counterexample :
    ((CandleRuntime.new.load
        { modelPath := "/bad/path", gpuId := none, vramBudgetMb := none, cpuThreads := none }
        (Except.error "bad weights")).1 = Except.error "bad weights")
    ∧ ((CandleRuntime.new.load
        { modelPath := "/bad/path", gpuId := none, vramBudgetMb := none, cpuThreads := none }
        (Except.error "bad weights")).2.status ≠ RuntimeStatus.Error) := by
  constructor
  · rfl
  · intro h
    simp [CandleRuntime.load, CandleRuntime.new] at h

/-- C1, amended: every `load(config)` call on the candle runtime that
returns an error (bad path, bad weights, unsupported architecture, device
failure — all abstracted as an error outcome of the fallible load stage)
leaves the runtime's status `Loading`: the status is set to `Loading` on
entry, every failure propagates before the `Ready` assignment, and no path
assigns `Error`. -/
theorem c1_failed_load_status_loading (rt : CandleRuntime) (config : RuntimeConfig)
    (msg : String) :
    (rt.load config (Except.error msg)).1 = Except.error msg
    ∧ (rt.load config (Except.error msg)).2.status = RuntimeStatus.Loading := by
  exact ⟨rfl, rfl⟩

/-! ## C10 — the selected-name cell on failed load_model -/

/-- C10: whenever `AppState::load_model(name)` returns an error (name not in
the registry, or the load itself failing), the `current_model` cell holds
exactly the value it held before the call; it is assigned only after
`load()` has succeeded. -/
theorem c10_failed_load_model_keeps_current (st : AppState) (modelName : String)
    (outcome : Except String LoadedModel) (msg : String)
    (h : (st.loadModel modelName outcome).1 = Except.error msg) :
    (st.loadModel modelName outcome).2.current = st.current := by
  unfold AppState.loadModel at h ⊢
  by_cases hfast : st.current = some modelName ∧ st.runtime.status = RuntimeStatus.Ready
  · simp [hfast]
  · simp only [if_neg hfast] at h ⊢
    cases hlk : st.registry.lookup modelName with
    | none => simp [hlk]
    | some path =>
        simp only [hlk] at h ⊢
        cases outcome with
        | error e => simp [CandleRuntime.load]
        | ok m => simp [CandleRuntime.load] at h

/-- C10, witness: a lookup miss on an empty registry returns an error and
leaves `current_model` untouched. -/
theorem c10_witness :
    ({ registry := [], runtime := CandleRuntime.new,
       current := some "old" } : AppState).loadModel "A" (Except.error "x")
        |>.2.current = some "old" :=
  c10_failed_load_model_keeps_current _ "A" (Except.error "x")
    "Model 'A' not found in registry" rfl

/-! ## C2 — concurrent ensure_loaded (counterexample) -/

/-- C2, counterexample. The claim says the unload/load/name-update of
`AppState::load_model` form one atomic critical section so that two
concurrent callers with the same name cause exactly one `load()` call. In
the interleaving where both callers pass the fast-path check before either
finishes, both run the load block: `load()` is called twice. -/
theorem c2_counterexample :
    (lmRun "A" [true, false, true, true, true, true, false, false, false, false] lmInit).shared.loads = 2
    ∧ (lmRun "A" [true, false, true, true, true, true, false, false, false, false] lmInit).t1.pc = LmPC.finished
    ∧ (lmRun "A" [true, false, true, true, true, true, false, false, false, false] lmInit).t2.pc = LmPC.finished := by
  constructor
  · rfl
  · exact ⟨rfl, rfl⟩

/-! ## C3 — dimension validation vs. text-encoder forward passes -/

/-- C3, counterexample. The claim says a request whose width is not
divisible by 16 fails `InvalidDimensions` before any forward pass, in
particular before any text-encoder forward pass. In the source the prompt is
tokenized and text-encoded *before* the dimension check, so the failing
request width=1000, height=1024 produces the `InvalidDimensions` error with
a text-encoder forward pass already in the effect trace. -/
theorem c3_counterexample :
    (zDemoPipeline.generateInternal
        { prompt := "a cat", negativePrompt := none, width := 1000, height := 1024,
          steps := 9, guidanceScale := 5, seed := none }).1
      = Except.error (GenErr.invalidDimensions 1000 1024)
    ∧ DiffEffect.textEncoderForward ∈
        (zDemoPipeline.generateInternal
          { prompt := "a cat", negativePrompt := none, width := 1000, height := 1024,
            steps := 9, guidanceScale := 5, seed := none }).2 := by
  constructor
  · rfl
  · simp [ZImagePipeline.generateInternal, ZImagePipeline.negStage, zDemoPipeline]

/-- C3, amended: for every `ImageGenRequest` whose width or height is not
divisible by 16 (and whose prompts tokenize), `generate` fails with
`InvalidDimensions` before the noise initialization, before any
denoising-transformer forward pass and before the VAE decode — but after
the text-encoder forward pass(es): the only compute effects in the trace at
the point of failure are text-encoder forward passes. -/
theorem c3_invalid_dims_before_denoising (pl : ZImagePipeline) (req : ImageGenRequest)
    (hdim : req.height % 16 ≠ 0 ∨ req.width % 16 ≠ 0)
    (henc : ∀ s, ∃ t, pl.encode s = Except.ok t) :
    (pl.generateInternal req).1 = Except.error (GenErr.invalidDimensions req.width req.height)
    ∧ ∀ eff ∈ (pl.generateInternal req).2, eff = DiffEffect.textEncoderForward := by
  obtain ⟨t0, ht0⟩ := henc (formatPrompt req.prompt)
  have hstage : ∃ nf fx, pl.negStage req = (Except.ok nf, fx)
      ∧ (fx = [] ∨ fx = [DiffEffect.textEncoderForward]) := by
    cases hneg : req.negativePrompt with
    | none => exact ⟨none, [], by simp [ZImagePipeline.negStage, hneg], Or.inl rfl⟩
    | some np =>
        by_cases hcase : np ≠ "" ∧ 1 < req.guidanceScale
        · obtain ⟨t1, ht1⟩ := henc (formatPrompt np)
          refine ⟨some (pl.textEncoder t1), [DiffEffect.textEncoderForward], ?_, Or.inr rfl⟩
          simp only [ZImagePipeline.negStage, hneg]
          rw [if_pos hcase, ht1]
        · refine ⟨none, [], ?_, Or.inl rfl⟩
          simp only [ZImagePipeline.negStage, hneg]
          rw [if_neg hcase]
  obtain ⟨nf, fx, hst, hfx⟩ := hstage
  unfold ZImagePipeline.generateInternal
  rw [ht0, hst]
  simp only [if_pos hdim]
  refine ⟨trivial, ?_⟩
  intro eff heff
  rcases hfx with h | h <;> subst h <;> simp at heff <;> simp [heff]

/-- C3, witness for the amended theorem at width=1000, height=1024. -/
theorem c3_witness :
    (zDemoPipeline.generateInternal
        { prompt := "a cat", negativePrompt := some "blurry", width := 1000, height := 1024,
          steps := 9, guidanceScale := 5, seed := none }).1
      = Except.error (GenErr.invalidDimensions 1000 1024) :=
  (c3_invalid_dims_before_denoising zDemoPipeline
    { prompt := "a cat", negativePrompt := some "blurry", width := 1000, height := 1024,
      steps := 9, guidanceScale := 5, seed := none }
    (Or.inr (by decide)) (fun s => ⟨[1], rfl⟩)).1

/-! ## C8 — malformed logits panic the sampler -/

/-- C8: the claim says `Sampler::sample` never raises on malformed logits
(NaN or all `-∞`) and degrades to the last candidate. With the nucleus path
active (`top_p = 0.9 < 1.0`, the value both chat entry points hard-code), a
NaN logit makes every softmax output NaN, and the descending sort's
comparator `partial_cmp(..).unwrap()` panics on the first NaN comparison —
for every choice of the exponential function. The degradation to the last
candidate only happens on the `top_p = 1.0` multinomial path. -/
theorem c8_nan_logits_panic (e : ℚ → ℚ) :
    FlSampler.sample e (FlSampler.new 1 (9/10) 42) [Fl.nan, Fl.fin 0]
      = Except.error "panicked: Option::unwrap() on a None value (partial_cmp)" := by
  have htemp : (FlSampler.new 1 (9/10) 42).temperature ≠ 0 := by
    have : (0 : ℚ) < max 1 (1/1000) := by positivity
    simpa [FlSampler.new] using this.ne'
  have hp : (FlSampler.new 1 (9/10) 42).topP < 1 := by
    simp [FlSampler.new]
    norm_num
  unfold FlSampler.sample
  simp only [List.map, Fl.fdiv]
  rw [if_neg htemp]
  simp only [zero_div, List.foldl, Fl.fmax, Fl.fsub, Fl.fexp, Fl.fadd, sub_self,
    if_pos hp]
  unfold FlSampler.sampleTopP flSortDesc
  rw [if_pos (by decide)]

/-! ## C5 — the top-p candidate set -/

/-- Descending order on (index, probability) pairs: the earlier element has
the larger (or equal) probability. -/
def DescPair (a b : Nat × ℚ) : Prop := b.2 ≤ a.2

theorem insertDesc_perm (x : Nat × ℚ) (l : List (Nat × ℚ)) :
    List.Perm (insertDesc x l) (x :: l) := by
  induction l with
  | nil => simp [insertDesc]
  | cons y ys ih =>
      unfold insertDesc
      split
      · exact List.Perm.refl _
      · exact (ih.cons y).trans (List.Perm.swap x y ys)

theorem sortDesc_foldl_perm (l acc : List (Nat × ℚ)) :
    List.Perm (l.foldl (fun acc x => insertDesc x acc) acc) (acc ++ l) := by
  induction l generalizing acc with
  | nil => simp
  | cons x xs ih =>
      simp only [List.foldl_cons]
      refine (ih (insertDesc x acc)).trans ?_
      exact (((insertDesc_perm x acc).append_right xs).trans List.perm_middle.symm)

theorem sortDesc_perm (l : List (Nat × ℚ)) : List.Perm (sortDesc l) l := by
  simpa using sortDesc_foldl_perm l []

theorem insertDesc_pairwise {x : Nat × ℚ} {l : List (Nat × ℚ)}
    (h : l.Pairwise DescPair) : (insertDesc x l).Pairwise DescPair := by
  induction l with
  | nil => simp [insertDesc, DescPair]
  | cons y ys ih =>
      rcases List.pairwise_cons.mp h with ⟨hy, hys⟩
      unfold insertDesc
      split
      next hlt =>
        refine List.pairwise_cons.mpr ⟨?_, h⟩
        intro z hz
        rcases List.mem_cons.mp hz with rfl | hz
        · exact le_of_lt hlt
        · exact (hy z hz).trans (le_of_lt hlt)
      next hge =>
        refine List.pairwise_cons.mpr ⟨?_, ih hys⟩
        intro z hz
        have hz2 : z ∈ x :: ys := (insertDesc_perm x ys).mem_iff.mp hz
        rcases List.mem_cons.mp hz2 with rfl | hz3
        · exact le_of_not_lt hge
        · exact hy z hz3

theorem sortDesc_foldl_pairwise (l : List (Nat × ℚ)) :
    ∀ acc, acc.Pairwise DescPair →
      (l.foldl (fun acc x => insertDesc x acc) acc).Pairwise DescPair := by
  induction l with
  | nil => exact fun acc h => h
  | cons x xs ih => exact fun acc h => ih _ (insertDesc_pairwise h)

theorem sortDesc_pairwise (l : List (Nat × ℚ)) : (sortDesc l).Pairwise DescPair :=
  sortDesc_foldl_pairwise l [] (List.Pairwise.nil)

theorem pairwise_getLast_min {l : List (Nat × ℚ)} (h : l.Pairwise DescPair)
    {last : Nat × ℚ} (hl : l.getLast? = some last) :
    ∀ ip ∈ l, last.2 ≤ ip.2 := by
  induction l with
  | nil => simp at hl
  | cons y ys ih =>
      rcases List.pairwise_cons.mp h with ⟨hy, hys⟩
      cases ys with
      | nil =>
          simp only [List.getLast?_singleton, Option.some.injEq] at hl
          subst hl
          intro ip hip
          rcases List.mem_cons.mp hip with rfl | hip
          · exact le_refl _
          · simp at hip
      | cons z zs =>
          have hl' : (z :: zs).getLast? = some last := by
            rw [List.getLast?_cons_cons] at hl
            exact hl
          intro ip hip
          rcases List.mem_cons.mp hip with rfl | hip
          · have hmem : last ∈ z :: zs := by
              obtain ⟨hne, heq⟩ := List.mem_getLast?_eq_getLast (Option.mem_def.mpr hl')
              rw [heq]
              exact List.getLast_mem hne
            exact hy last hmem
          · exact ih hys hl' ip hip

theorem cutoffLen_ge_one {p : ℚ} :
    ∀ {l : List (Nat × ℚ)} {acc : ℚ} {c : Nat}, cutoffLen p acc l = some c → 1 ≤ c := by
  intro l
  induction l with
  | nil => intro acc c h; simp [cutoffLen] at h
  | cons x xs ih =>
      intro acc c h
      unfold cutoffLen at h
      split at h
      · simp only [Option.some.injEq] at h
        omega
      · cases hrec : cutoffLen p (acc + x.2) xs with
        | none => rw [hrec] at h; simp at h
        | some c' =>
            rw [hrec] at h
            simp only [Option.map_some', Option.some.injEq] at h
            omega

theorem cutoffLen_some_bounds {p : ℚ} :
    ∀ {l : List (Nat × ℚ)} {acc : ℚ} {c : Nat}, acc < p → cutoffLen p acc l = some c →
      p ≤ acc + ((l.take c).map Prod.snd).sum
      ∧ acc + ((l.take (c - 1)).map Prod.snd).sum < p := by
  intro l
  induction l with
  | nil => intro acc c hacc h; simp [cutoffLen] at h
  | cons x xs ih =>
      intro acc c hacc h
      unfold cutoffLen at h
      split at h
      next hreach =>
        simp only [Option.some.injEq] at h
        subst h
        constructor
        · simpa using hreach
        · simpa using hacc
      next hmiss =>
        cases hrec : cutoffLen p (acc + x.2) xs with
        | none => rw [hrec] at h; simp at h
        | some c' =>
            rw [hrec] at h
            simp only [Option.map_some', Option.some.injEq] at h
            subst h
            have hacc' : acc + x.2 < p := lt_of_not_ge fun hge => hmiss hge
            have hone : 1 ≤ c' := cutoffLen_ge_one hrec
            obtain ⟨h1, h2⟩ := ih hacc' hrec
            constructor
            · calc p ≤ acc + x.2 + ((xs.take c').map Prod.snd).sum := h1
                _ = acc + (((x :: xs).take (c' + 1)).map Prod.snd).sum := by
                    rw [List.take_succ_cons]
                    simp only [List.map_cons, List.sum_cons]
                    ring
            · have htake : (x :: xs).take (c' + 1 - 1) = x :: xs.take (c' - 1) := by
                have h3 : c' + 1 - 1 = (c' - 1) + 1 := by omega
                rw [h3, List.take_succ_cons]
              calc acc + (((x :: xs).take (c' + 1 - 1)).map Prod.snd).sum
                  = acc + x.2 + ((xs.take (c' - 1)).map Prod.snd).sum := by
                    rw [htake]
                    simp only [List.map_cons, List.sum_cons]
                    ring
                _ < p := h2

theorem cutoffLen_none_sum {p : ℚ} :
    ∀ {l : List (Nat × ℚ)} {acc : ℚ}, acc < p → cutoffLen p acc l = none →
      acc + (l.map Prod.snd).sum < p := by
  intro l
  induction l with
  | nil => intro acc hacc _; simpa using hacc
  | cons x xs ih =>
      intro acc hacc h
      unfold cutoffLen at h
      split at h
      next hreach => simp at h
      next hmiss =>
        cases hrec : cutoffLen p (acc + x.2) xs with
        | some c' => rw [hrec] at h; simp at h
        | none =>
            have hacc' : acc + x.2 < p := lt_of_not_ge fun hge => hmiss hge
            have := ih hacc' hrec
            calc acc + ((x :: xs).map Prod.snd).sum
                = acc + x.2 + (xs.map Prod.snd).sum := by simp; ring
              _ < p := this

/-- C5: for every probability vector (nonnegative entries summing to 1) and
every nucleus mass `0 < p < 1`, the candidate set `sample_top_p` retains is
the probability-descending-sorted front segment of length `c ≥ 1` whose
pre-renormalization cumulative probability is ≥ p, and it is minimal:
without its last retained member — which has the lowest probability of the
retained set — the cumulative probability falls below p. -/
theorem c5_top_p_candidate_bounds (probs : List ℚ) (p : ℚ)
    (hp0 : 0 < p) (hp1 : p < 1) (hsum : probs.sum = 1) :
    ∃ c, 1 ≤ c
      ∧ topPCandidates p probs = (sortDesc probs.enum).take c
      ∧ p ≤ (((sortDesc probs.enum).take c).map Prod.snd).sum
      ∧ (((sortDesc probs.enum).take (c - 1)).map Prod.snd).sum < p
      ∧ ∀ last ∈ ((sortDesc probs.enum).take c).getLast?,
          ∀ ip ∈ (sortDesc probs.enum).take c, last.2 ≤ ip.2 := by
  have hsum' : ((sortDesc probs.enum).map Prod.snd).sum = 1 := by
    have hperm := (sortDesc_perm probs.enum).map Prod.snd
    rw [hperm.sum_eq, List.enum_map_snd, hsum]
  cases hcut : cutoffLen p 0 (sortDesc probs.enum) with
  | none =>
      exfalso
      have hlt := cutoffLen_none_sum hp0 hcut
      rw [hsum'] at hlt
      linarith
  | some c =>
      obtain ⟨h1, h2⟩ := cutoffLen_some_bounds hp0 hcut
      refine ⟨c, cutoffLen_ge_one hcut, ?_, ?_, ?_, ?_⟩
      · simp [topPCandidates, hcut]
      · simpa using h1
      · simpa using h2
      · intro last hlast ip hip
        have hpw : ((sortDesc probs.enum).take c).Pairwise DescPair :=
          List.Pairwise.sublist (List.take_sublist c _) (sortDesc_pairwise probs.enum)
        exact pairwise_getLast_min hpw (Option.mem_def.mp hlast) ip hip

/-- C5, witness at probs = [1/2, 1/3, 1/6], p = 2/3. -/
theorem c5_witness :
    ∃ c, 1 ≤ c
      ∧ topPCandidates (2/3) [1/2, 1/3, 1/6] = (sortDesc ([(1:ℚ)/2, 1/3, 1/6].enum)).take c
      ∧ (2/3 : ℚ) ≤ (((sortDesc ([(1:ℚ)/2, 1/3, 1/6].enum)).take c).map Prod.snd).sum
      ∧ (((sortDesc ([(1:ℚ)/2, 1/3, 1/6].enum)).take (c - 1)).map Prod.snd).sum < 2/3
      ∧ ∀ last ∈ ((sortDesc ([(1:ℚ)/2, 1/3, 1/6].enum)).take c).getLast?,
          ∀ ip ∈ (sortDesc ([(1:ℚ)/2, 1/3, 1/6].enum)).take c, last.2 ≤ ip.2 :=
  c5_top_p_candidate_bounds [1/2, 1/3, 1/6] (2/3) (by norm_num) (by norm_num)
    (by norm_num)

/-! ## C4 — token counts and finish reasons of the decode loop -/

theorem traceStep_succ (e : ℚ → ℚ) (m : LoadedModel) (t : ℚ) (ids : List Nat) (k : Nat) :
    traceStep e m t ids (k + 1)
      = ((Sampler.sample e (traceStep e m t ids k).1 (m.fwd (traceStep e m t ids k).2)).1,
         (traceStep e m t ids k).2
           ++ [(Sampler.sample e (traceStep e m t ids k).1 (m.fwd (traceStep e m t ids k).2)).2]) := by
  rw [traceStep]

theorem genLoop_no_eos (e : ℚ → ℚ) (m : LoadedModel) (t : ℚ) (ids : List Nat) :
    ∀ (n k g : Nat),
      (∀ j, j < n → some (sampledAt e m t ids (k + j)) ≠ m.eosTokenId) →
      genLoop e m n (traceStep e m t ids k).1 (traceStep e m t ids k).2 g
        = ((traceStep e m t ids (k + n)).2, g + n, (traceStep e m t ids (k + n)).1, "length") := by
  intro n
  induction n with
  | zero => intro k g _; simp [genLoop]
  | succ n ih =>
      intro k g hno
      have h0 : ¬ some (sampledAt e m t ids k) = m.eosTokenId := by
        simpa using hno 0 (Nat.succ_pos n)
      rw [sampledAt] at h0
      simp only [genLoop]
      rw [if_neg h0]
      have hstep := ih (k + 1) (g + 1) (fun j hj => by
        have hs := hno (j + 1) (by omega)
        have harith : k + (j + 1) = k + 1 + j := by omega
        rw [harith] at hs
        exact hs)
      rw [traceStep_succ] at hstep
      have ha1 : k + 1 + n = k + (n + 1) := by omega
      have ha2 : g + 1 + n = g + (n + 1) := by omega
      rw [ha1, ha2] at hstep
      exact hstep

theorem genLoop_eos (e : ℚ → ℚ) (m : LoadedModel) (t : ℚ) (ids : List Nat) :
    ∀ (j0 n k g : Nat), j0 < n →
      (∀ j, j < j0 → some (sampledAt e m t ids (k + j)) ≠ m.eosTokenId) →
      some (sampledAt e m t ids (k + j0)) = m.eosTokenId →
      genLoop e m n (traceStep e m t ids k).1 (traceStep e m t ids k).2 g
        = ((traceStep e m t ids (k + j0)).2, g + j0,
           (Sampler.sample e (traceStep e m t ids (k + j0)).1
             (m.fwd (traceStep e m t ids (k + j0)).2)).1, "stop") := by
  intro j0
  induction j0 with
  | zero =>
      intro n k g hn _ heos
      cases n with
      | zero => omega
      | succ n' =>
          rw [Nat.add_zero] at heos
          rw [sampledAt] at heos
          simp only [genLoop]
          rw [if_pos heos]
          simp
  | succ j0 ih =>
      intro n k g hn hno heos
      cases n with
      | zero => omega
      | succ n' =>
          have h0 : ¬ some (sampledAt e m t ids k) = m.eosTokenId := by
            simpa using hno 0 (Nat.succ_pos j0)
          rw [sampledAt] at h0
          simp only [genLoop]
          rw [if_neg h0]
          have hno' : ∀ j, j < j0 → some (sampledAt e m t ids (k + 1 + j)) ≠ m.eosTokenId := by
            intro j hj
            have hs := hno (j + 1) (by omega)
            have harith : k + (j + 1) = k + 1 + j := by omega
            rw [harith] at hs
            exact hs
          have heos' : some (sampledAt e m t ids (k + 1 + j0)) = m.eosTokenId := by
            have harith : k + (j0 + 1) = k + 1 + j0 := by omega
            rw [harith] at heos
            exact heos
          have hstep := ih n' (k + 1) (g + 1) (by omega) hno' heos'
          rw [traceStep_succ] at hstep
          have ha1 : k + 1 + j0 = k + (j0 + 1) := by omega
          have ha2 : g + 1 + j0 = g + (j0 + 1) := by omega
          rw [ha1, ha2] at hstep
          exact hstep

/-- Evaluation helper: on the one-token vocabulary (logits `[0]`) with the
hard-coded nucleus mass 0.9, the sampler always returns token 0 (whether or
not the draw lands inside the single candidate, the fallback is the last —
only — candidate) and advances its PRNG once. -/
theorem sample_singleton_zero (s : Sampler) (hp : s.topP = 9/10) :
    Sampler.sample (fun _ => 1) s [0] = (s.random.1, 0) := by
  unfold Sampler.sample
  rw [hp]
  rw [if_pos (by norm_num)]
  unfold Sampler.sampleTopP
  rw [hp]
  have hcand : topPCandidates (9/10) (softmax (fun _ => 1) ([(0 : ℚ)].map (· / s.temperature)))
      = [(0, 1)] := by
    have hsm : softmax (fun _ => 1) ([(0 : ℚ)].map (· / s.temperature)) = [1] := by
      unfold softmax
      norm_num
    rw [hsm]
    unfold topPCandidates sortDesc insertDesc cutoffLen
    norm_num
  rw [hcand]
  simp only [List.map_cons, List.map_nil, List.foldl_cons, List.foldl_nil,
    List.getLast?_singleton, Option.map_some', Option.getD_some]
  norm_num
  unfold pickFirst
  split
  · simp
  · simp [pickFirst]

/-- C4: for a generation with budget `max_tokens = N` (the decode loop of
`LoadedModel::generate`/`generate_stream`, started on the hard-coded
`Sampler.new t 0.9 42`): if the sampler never produces the EOS id in the
first N steps, exactly N tokens are generated and the finish reason is
"length"; if the first EOS is produced at step k < N, exactly k tokens are
generated and the finish reason is "stop", with the token sequence equal to
the pre-EOS trace — the EOS token itself is neither appended nor counted. -/
theorem c4_token_budget_and_eos (e : ℚ → ℚ) (m : LoadedModel) (t : ℚ)
    (ids : List Nat) (N : Nat) :
    ((∀ j, j < N → some (sampledAt e m t ids j) ≠ m.eosTokenId) →
      genLoop e m N (Sampler.new t (9/10) 42) ids 0
        = ((traceStep e m t ids N).2, N, (traceStep e m t ids N).1, "length"))
    ∧ (∀ k, k < N → (∀ j, j < k → some (sampledAt e m t ids j) ≠ m.eosTokenId) →
        some (sampledAt e m t ids k) = m.eosTokenId →
        (genLoop e m N (Sampler.new t (9/10) 42) ids 0).1 = (traceStep e m t ids k).2
        ∧ (genLoop e m N (Sampler.new t (9/10) 42) ids 0).2.1 = k
        ∧ (genLoop e m N (Sampler.new t (9/10) 42) ids 0).2.2.2 = "stop") := by
  have h0 : traceStep e m t ids 0 = (Sampler.new t (9/10) 42, ids) := rfl
  constructor
  · intro hno
    have := genLoop_no_eos e m t ids N 0 0 (fun j hj => by simpa using hno j hj)
    rw [h0] at this
    simpa using this
  · intro k hk hno heos
    have := genLoop_eos e m t ids k N 0 0 hk (fun j hj => by simpa using hno j hj)
      (by simpa using heos)
    rw [h0] at this
    simp only at this
    rw [this]
    simp

/-- C4, witness: on the one-token vocabulary, budget 1 with no EOS id gives
1 token and "length"; with EOS id 0 (the only token) the very first step
stops with 0 tokens and "stop". -/
theorem c4_witness :
    (genLoop (fun _ => 1) demoModel 1 (Sampler.new 1 (9/10) 42) [] 0).2.1 = 1
    ∧ (genLoop (fun _ => 1) demoModel 1 (Sampler.new 1 (9/10) 42) [] 0).2.2.2 = "length"
    ∧ (genLoop (fun _ => 1) demoModelEos 1 (Sampler.new 1 (9/10) 42) [] 0).1 = []
    ∧ (genLoop (fun _ => 1) demoModelEos 1 (Sampler.new 1 (9/10) 42) [] 0).2.1 = 0
    ∧ (genLoop (fun _ => 1) demoModelEos 1 (Sampler.new 1 (9/10) 42) [] 0).2.2.2 = "stop" := by
  have h1 := (c4_token_budget_and_eos (fun _ => 1) demoModel 1 [] 1).1
    (fun j _ => by simp [demoModel])
  have heos : some (sampledAt (fun _ => 1) demoModelEos 1 [] 0) = demoModelEos.eosTokenId := by
    rw [sampledAt]
    have hfwd : demoModelEos.fwd (traceStep (fun _ => 1) demoModelEos 1 [] 0).2 = [0] := rfl
    rw [hfwd]
    have hs : (traceStep (fun _ => 1) demoModelEos 1 [] 0).1 = Sampler.new 1 (9/10) 42 := rfl
    rw [hs, sample_singleton_zero _ (by simp [Sampler.new])]
    rfl
  have h2 := (c4_token_budget_and_eos (fun _ => 1) demoModelEos 1 [] 1).2 0
    (by omega) (fun j hj => by omega) heos
  refine ⟨?_, ?_, ?_, ?_, ?_⟩
  · rw [h1]
  · rw [h1]
  · rw [h2.1]; rfl
  · exact h2.2.1
  · exact h2.2.2

/-! ## C7 — the final token of a streamed sequence -/

theorem genStreamLoop_ends_with_finish (e : ℚ → ℚ) (m : LoadedModel) (promptLen : Nat)
    (hdec : ∀ l, ∃ s, m.decode l = Except.ok s) :
    ∀ (n : Nat) (s : Sampler) (toks : List Nat) (prevLen : Nat),
      ∃ ds r, genStreamLoop e m promptLen n s toks prevLen
          = (ds ++ [{ content := [], finishReason := some r }], none)
        ∧ (r = "stop" ∨ r = "length") := by
  intro n
  induction n with
  | zero =>
      intro s toks prevLen
      exact ⟨[], "length", rfl, Or.inr rfl⟩
  | succ n ih =>
      intro s toks prevLen
      simp only [genStreamLoop]
      split
      next heos => exact ⟨[], "stop", rfl, Or.inl rfl⟩
      next hne =>
        obtain ⟨cur, hcur⟩ :=
          hdec ((toks ++ [(Sampler.sample e s (m.fwd toks)).2]).drop promptLen)
        simp only [hcur]
        split
        next hlt =>
          obtain ⟨ds, r, hds, hr⟩ :=
            ih (Sampler.sample e s (m.fwd toks)).1
              (toks ++ [(Sampler.sample e s (m.fwd toks)).2]) cur.length
          exact ⟨{ content := cur.drop prevLen, finishReason := none } :: ds, r,
            by rw [hds]; rfl, hr⟩
        next hge =>
          exact ih (Sampler.sample e s (m.fwd toks)).1
            (toks ++ [(Sampler.sample e s (m.fwd toks)).2]) prevLen

/-- C7, counterexample. The claim says every terminating `chat_stream` token
sequence — including on tokenization error paths — ends with a token
carrying finish_reason "stop" or "length". On a ready runtime whose
tokenizer fails, the spawned producer aborts before sending anything: the
emitted sequence is empty and carries no finish token. -/
theorem c7_counterexample :
    CandleRuntime.chatStream (fun _ => 1) (readyRuntime demoModelBadTok) (demoRequest 2)
      = Except.ok ([], some "Tokenization error: malformed prompt")
    ∧ ¬ endsWithFinish
        ([] : List ChatToken) := by
  constructor
  · rfl
  · intro h
    obtain ⟨tok, htok, _⟩ := h
    simp at htok

/-- C7, amended: when tokenization succeeds and the detokenizer never fails
(and the consumer keeps reading), the token sequence emitted by
`generate_stream` ends with a token carrying finish_reason "stop" or
"length", and no error escapes; on tokenization (or detokenization) error
paths the stream instead terminates without a finishing token. -/
theorem c7_stream_ends_with_finish (e : ℚ → ℚ) (m : LoadedModel) (prompt : String)
    (maxTokens : Nat) (t : ℚ) (ids : List Nat)
    (henc : m.encode prompt = Except.ok ids)
    (hdec : ∀ l, ∃ s, m.decode l = Except.ok s) :
    endsWithFinish (m.generateStream e prompt maxTokens t).1
    ∧ (m.generateStream e prompt maxTokens t).2 = none := by
  unfold LoadedModel.generateStream
  simp only [henc]
  obtain ⟨ds, r, hds, hr⟩ := genStreamLoop_ends_with_finish e m ids.length hdec maxTokens
    (Sampler.new t (9/10) 42) ids 0
  rw [hds]
  constructor
  · refine ⟨{ content := [], finishReason := some r }, by simp, ?_⟩
    rcases hr with h | h <;> simp [h]
  · rfl

/-- C7, witness: on the demo model the stream of budget 1 ends with a finish
token. -/
theorem c7_witness :
    endsWithFinish (demoModel.generateStream (fun _ => 1) "x" 1 1).1 :=
  (c7_stream_ends_with_finish (fun _ => 1) demoModel "x" 1 1 [] rfl
    (fun _ => ⟨[], rfl⟩)).1

/-! ## C6 — streaming / non-streaming equivalence -/

theorem textAt_chain (e : ℚ → ℚ) (m : LoadedModel) (t : ℚ) (ids : List Nat)
    (hmono : ∀ k, textAt e m t ids k <+: textAt e m t ids (k + 1)) :
    ∀ k d, textAt e m t ids k <+: textAt e m t ids (k + d) := by
  intro k d
  induction d with
  | zero => exact List.prefix_refl _
  | succ d ih => exact ih.trans (hmono (k + d))

theorem drop_concat_of_chain {a b c : List Char} (hab : a <+: b) (hbc : b <+: c) :
    b.drop a.length ++ c.drop b.length = c.drop a.length := by
  obtain ⟨d1, hb⟩ := hab
  obtain ⟨d2, hc⟩ := hbc
  subst hb
  subst hc
  rw [List.drop_left]
  rw [List.append_assoc, List.drop_left]
  have hlen : (a ++ d1).length = a.length + d1.length := List.length_append a d1
  rw [List.drop_append_eq_append_drop]
  simp

/-- The token sequence the decode loop of `generate` ends with is the trace
after `runLen` steps (budget exhausted or first EOS). -/
theorem genLoop_tokens (e : ℚ → ℚ) (m : LoadedModel) (t : ℚ) (ids : List Nat) :
    ∀ (n k g : Nat),
      (genLoop e m n (traceStep e m t ids k).1 (traceStep e m t ids k).2 g).1
        = (traceStep e m t ids (k + runLen e m t ids k n)).2 := by
  intro n
  induction n with
  | zero => intro k g; simp [genLoop, runLen]
  | succ n ih =>
      intro k g
      simp only [genLoop]
      by_cases heos : some (sampledAt e m t ids k) = m.eosTokenId
      · rw [sampledAt] at heos
        rw [if_pos heos]
        have hrl : runLen e m t ids k (n + 1) = 0 := by
          rw [runLen, if_pos (by rw [sampledAt]; exact heos)]
        rw [hrl]
        simp
      · rw [sampledAt] at heos
        rw [if_neg heos]
        have hrl : runLen e m t ids k (n + 1) = runLen e m t ids (k + 1) n + 1 := by
          rw [runLen, if_neg (by rw [sampledAt]; exact heos)]
        rw [hrl]
        have hstep := ih (k + 1) (g + 1)
        rw [traceStep_succ] at hstep
        have ha : k + 1 + runLen e m t ids (k + 1) n = k + (runLen e m t ids (k + 1) n + 1) := by
          omega
        rw [ha] at hstep
        exact hstep

theorem concatContent_cons (x : ChatToken) (l : List ChatToken) :
    concatContent (x :: l) = x.content ++ concatContent l := by
  simp [concatContent]

/-- The concatenated deltas of the streaming loop, started at trace position
`k` with the text emitted so far being the decode of position `k`, equal the
suffix of the decoded text at the stopping position beyond the already
emitted text — provided every trace position decodes successfully and each
decoded text extends the previous one. -/
theorem genStreamLoop_concat (e : ℚ → ℚ) (m : LoadedModel) (t : ℚ) (ids : List Nat)
    (hdec : ∀ k, ∃ s, m.decode ((traceStep e m t ids k).2.drop ids.length) = Except.ok s)
    (hmono : ∀ k, textAt e m t ids k <+: textAt e m t ids (k + 1)) :
    ∀ (n k : Nat),
      concatContent (genStreamLoop e m ids.length n (traceStep e m t ids k).1
          (traceStep e m t ids k).2 (textAt e m t ids k).length).1
        = (textAt e m t ids (k + runLen e m t ids k n)).drop
            (textAt e m t ids k).length := by
  intro n
  induction n with
  | zero =>
      intro k
      simp [genStreamLoop, runLen, concatContent, List.drop_length]
  | succ n ih =>
      intro k
      simp only [genStreamLoop]
      by_cases heos : some (sampledAt e m t ids k) = m.eosTokenId
      · have heos' := heos
        rw [sampledAt] at heos'
        rw [if_pos heos']
        have hrl : runLen e m t ids k (n + 1) = 0 := by
          rw [runLen, if_pos heos]
        rw [hrl]
        simp [concatContent, List.drop_length]
      · have heos' := heos
        rw [sampledAt] at heos'
        rw [if_neg heos']
        obtain ⟨cur, hcur⟩ := hdec (k + 1)
        have hscrut : ((traceStep e m t ids k).2
            ++ [(Sampler.sample e (traceStep e m t ids k).1
                  (m.fwd (traceStep e m t ids k).2)).2])
            = (traceStep e m t ids (k + 1)).2 := by
          rw [traceStep_succ]
        have hs1 : (Sampler.sample e (traceStep e m t ids k).1
              (m.fwd (traceStep e m t ids k).2)).1
            = (traceStep e m t ids (k + 1)).1 := by
          rw [traceStep_succ]
        rw [hscrut, hs1]
        simp only [hcur]
        have hcur' : textAt e m t ids (k + 1) = cur := by
          rw [textAt, hcur]
          rfl
        have hrl : runLen e m t ids k (n + 1) = runLen e m t ids (k + 1) n + 1 := by
          rw [runLen, if_neg heos]
        rw [hrl]
        have harith : k + (runLen e m t ids (k + 1) n + 1)
            = k + 1 + runLen e m t ids (k + 1) n := by omega
        rw [harith]
        by_cases hlt : (textAt e m t ids k).length < cur.length
        · rw [if_pos hlt]
          rw [← hcur']
          simp only [concatContent_cons]
          rw [ih (k + 1)]
          exact drop_concat_of_chain (hmono k)
            (textAt_chain e m t ids hmono (k + 1) (runLen e m t ids (k + 1) n))
        · rw [if_neg hlt]
          have hle : cur.length ≤ (textAt e m t ids k).length := Nat.le_of_not_lt hlt
          have hpre : textAt e m t ids k <+: cur := hcur' ▸ hmono k
          have heq : textAt e m t ids k = cur :=
            List.IsPrefix.eq_of_length hpre (le_antisymm hpre.length_le hle)
          have hlen : (textAt e m t ids k).length = (textAt e m t ids (k + 1)).length := by
            rw [hcur', ← heq]
          rw [hlen, ih (k + 1), ← hlen]

/-- C6, amended: for every request (fixed hard-coded seed and given
temperature), provided the prompt tokenizes, every generated token front
segment detokenizes, the empty sequence decodes to the empty text, and each
successively decoded text extends the previous one (byte-level
detokenization only appends), the concatenation of all content deltas
emitted by the streaming loop equals the content string returned by the
non-streaming `generate` for the same input. -/
theorem c6_stream_concat_eq_chat (e : ℚ → ℚ) (m : LoadedModel) (prompt : String)
    (N : Nat) (t : ℚ) (ids : List Nat)
    (henc : m.encode prompt = Except.ok ids)
    (hnil : m.decode [] = Except.ok [])
    (hdec : ∀ k, ∃ s, m.decode ((traceStep e m t ids k).2.drop ids.length) = Except.ok s)
    (hmono : ∀ k, textAt e m t ids k <+: textAt e m t ids (k + 1)) :
    ∃ res, m.generate e prompt N t = Except.ok res
      ∧ concatContent (m.generateStream e prompt N t).1 = res.text := by
  have h0 : traceStep e m t ids 0 = (Sampler.new t (9/10) 42, ids) := rfl
  have htext0 : textAt e m t ids 0 = [] := by
    rw [textAt, h0]
    simp [hnil, List.drop_length, Except.toOption]
  obtain ⟨sfin, hsfin⟩ := hdec (0 + runLen e m t ids 0 N)
  have hsfin_text : textAt e m t ids (0 + runLen e m t ids 0 N) = sfin := by
    rw [textAt, hsfin]
    rfl
  have hstream := genStreamLoop_concat e m t ids hdec hmono N 0
  simp only [h0, htext0, List.length_nil, List.drop_zero] at hstream
  rw [hsfin_text] at hstream
  have hgen := genLoop_tokens e m t ids N 0 0
  simp only [h0] at hgen
  unfold LoadedModel.generate LoadedModel.generateStream
  simp only [henc]
  rw [hgen]
  simp only [hsfin]
  exact ⟨_, rfl, hstream⟩

/-- C6, witness on the demo model (budget 1). -/
theorem c6_witness :
    ∃ res, demoModel.generate (fun _ => 1) "x" 1 1 = Except.ok res
      ∧ concatContent (demoModel.generateStream (fun _ => 1) "x" 1 1).1 = res.text :=
  c6_stream_concat_eq_chat (fun _ => 1) demoModel "x" 1 1 [] rfl rfl
    (fun _ => ⟨[], rfl⟩) (fun _ => List.prefix_refl _)

/-- C6, counterexample to the claim as stated. The claim asserts the delta
concatenation always equals `chat()`'s content. With a detokenizer for which
the decoded text does not grow monotonically (decode of one token is "ab",
of two tokens "c" — real byte-level detokenizers shrink like this when a
partial multi-byte character is later completed), the stream emits "ab" and
then nothing (the new total text is shorter than what was already emitted),
while the non-streaming call returns "c". -/
theorem c6_counterexample :
    demoModelShrink.generate (fun _ => 1) "x" 2 1
      = Except.ok { text := ['c'], tokensGenerated := 2, finishReason := "length" }
    ∧ concatContent (demoModelShrink.generateStream (fun _ => 1) "x" 2 1).1 = ['a', 'b']
    ∧ (['a', 'b'] : List Char) ≠ ['c'] := by
  refine ⟨?_, ?_, by simp⟩
  · simp [LoadedModel.generate, genLoop, demoModelShrink, sample_singleton_zero,
      Sampler.new, Sampler.random]
  · simp [LoadedModel.generateStream, genStreamLoop, demoModelShrink, concatContent,
      sample_singleton_zero, Sampler.new, Sampler.random]

/-! ## C9 — hard-coded sampler parameters vs. cross-call determinism -/

/-- Evaluation helper: with the hardmax exponential, logits `[10, 0]` give
probabilities `[1, 0]`, the nucleus cutoff keeps only index 0, and the
sampler returns token 0 whatever the draw. -/
theorem sample_hardmax_fst (s : Sampler) (hp : s.topP = 9/10)
    (ht : 0 < s.temperature) :
    Sampler.sample hardmaxE s [10, 0] = (s.random.1, 0) := by
  have ht10 : 0 < 10 / s.temperature := by positivity
  unfold Sampler.sample
  rw [hp]
  rw [if_pos (by norm_num)]
  unfold Sampler.sampleTopP
  rw [hp]
  have hsm : softmax hardmaxE ([(10 : ℚ), 0].map (· / s.temperature)) = [1, 0] := by
    unfold softmax
    simp only [List.map_cons, List.map_nil, zero_div, List.foldl_cons, List.foldl_nil]
    rw [max_eq_left ht10.le]
    simp [hardmaxE, sub_self, ht10.ne', neg_eq_zero]
  rw [hsm]
  have hcand : topPCandidates (9/10) [1, 0] = [(0, 1)] := by
    unfold topPCandidates sortDesc
    simp only [List.enum]
    norm_num [insertDesc, cutoffLen]
  rw [hcand]
  simp only [List.map_cons, List.map_nil, List.foldl_cons, List.foldl_nil,
    List.getLast?_singleton, Option.map_some', Option.getD_some]
  norm_num
  unfold pickFirst
  split
  · simp
  · simp [pickFirst]

/-- Evaluation helper: with the hardmax exponential, logits `[0, 10]` make
the sampler return token 1. -/
theorem sample_hardmax_snd (s : Sampler) (hp : s.topP = 9/10)
    (ht : 0 < s.temperature) :
    Sampler.sample hardmaxE s [0, 10] = (s.random.1, 1) := by
  have ht10 : 0 < 10 / s.temperature := by positivity
  unfold Sampler.sample
  rw [hp]
  rw [if_pos (by norm_num)]
  unfold Sampler.sampleTopP
  rw [hp]
  have hsm : softmax hardmaxE ([(0 : ℚ), 10].map (· / s.temperature)) = [0, 1] := by
    unfold softmax
    simp only [List.map_cons, List.map_nil, zero_div, List.foldl_cons, List.foldl_nil]
    rw [max_eq_right ht10.le]
    simp [hardmaxE, sub_self, ht10.ne', neg_eq_zero]
  rw [hsm]
  have hcand : topPCandidates (9/10) [0, 1] = [(1, 1)] := by
    unfold topPCandidates sortDesc
    simp only [List.enum]
    norm_num [insertDesc, cutoffLen]
  rw [hcand]
  simp only [List.map_cons, List.map_nil, List.foldl_cons, List.foldl_nil,
    List.getLast?_singleton, Option.map_some', Option.getD_some]
  norm_num
  unfold pickFirst
  split
  · simp
  · simp [pickFirst]

/-- C9, counterexample. The claim concludes that two invocations of chat()
with identical messages, max_tokens and temperature produce identical token
sequences. But every forward pass mutates the per-model KV cache (the
`Mutex<llama::Cache>` / `Mutex<phi::Model>` behind `LoadedModel::forward`),
and no call resets it, so the second of two sequential identical calls runs
its forward passes against the first call's leftover cache state: here the
first call answers "a" and the identical second call, started from the
runtime state the first call left behind, answers "b". -/
theorem c9_counterexample :
    (chatSt hardmaxE stRt0 (demoRequest 1)).1
      = Except.ok { content := ['a'], tokensUsed := 1, finishReason := "length" }
    ∧ (chatSt hardmaxE ((chatSt hardmaxE stRt0 (demoRequest 1)).2) (demoRequest 1)).1
      = Except.ok { content := ['b'], tokensUsed := 1, finishReason := "length" }
    ∧ (Except.ok { content := ['a'], tokensUsed := 1, finishReason := "length" }
        : Except String ChatResponse)
      ≠ Except.ok { content := ['b'], tokensUsed := 1, finishReason := "length" } := by
  have hmax0 : (0 : ℚ) < (Sampler.new 1 (9/10) 42).temperature :=
    lt_of_lt_of_le one_pos (le_max_left 1 (1/1000))
  have h1 := sample_hardmax_fst (Sampler.new 1 (9/10) 42) rfl hmax0
  have h2 := sample_hardmax_snd (Sampler.new 1 (9/10) 42) rfl hmax0
  refine ⟨?_, ?_, by simp⟩
  · simp [chatSt, generateSt, genLoopSt, demoStateful, stRt0, demoRequest, h1]
  · simp [chatSt, generateSt, genLoopSt, demoStateful, stRt0, demoRequest, h1, h2]

/-- C9, amended: both chat entry points construct their sampler as
`Sampler.new temperature 0.9 42` — hard-coded nucleus mass 0.9 and PRNG
seed 42 on every call (`generateSt`/`generateStreamSt` coincide with their
sampler-parametric variants at exactly that sampler) — and neither consults
any request field other than messages, max_tokens and temperature: the
public chat interface exposes no way to vary the randomness between calls.
Consequently two invocations of chat() (or chat_stream()) from the same
runtime state — in particular the same backend KV-cache state — with
requests agreeing on those fields produce identical results; across
sequential calls only the mutated, never-reset cache state can make outputs
differ, never the sampler. -/
theorem c9_hardcoded_seed_same_state_determinism (C : Type) (e : ℚ → ℚ)
    (rt : CandleRuntimeSt C) (req req' : ChatRequest)
    (hm : req.messages = req'.messages) (hmax : req.maxTokens = req'.maxTokens)
    (ht : req.temperature = req'.temperature) :
    chatSt e rt req = chatSt e rt req'
    ∧ chatStreamSt e rt req = chatStreamSt e rt req'
    ∧ (∀ (m : StatefulModel C) (prompt : String) (n : Nat) (t0 : ℚ) (c : C),
        generateSt e m prompt n t0 c
          = generateStWith e m (Sampler.new t0 (9/10) 42) prompt n c)
    ∧ (∀ (m : StatefulModel C) (prompt : String) (n : Nat) (t0 : ℚ) (c : C),
        generateStreamSt e m prompt n t0 c
          = generateStreamStWith e m (Sampler.new t0 (9/10) 42) prompt n c) := by
  refine ⟨?_, ?_, fun m prompt n t0 c => rfl, fun m prompt n t0 c => rfl⟩
  · unfold chatSt
    rw [hm, hmax, ht]
  · unfold chatStreamSt
    rw [hm, hmax, ht]

/-- C9, witness: on the stateful demo runtime, two requests differing only
in the `stream` flag give the same chat result and state. -/
theorem c9_witness :
    chatSt (fun _ => 1) stRt0 (demoRequest 1)
      = chatSt (fun _ => 1) stRt0 { demoRequest 1 with stream := true } :=
  (c9_hardcoded_seed_same_state_determinism Nat (fun _ => 1) stRt0 (demoRequest 1)
    { demoRequest 1 with stream := true } rfl rfl rfl).1

/-! ## C2 — amended property over all interleavings

The invariant ties the shared cells to the two thread states: `loads` counts
the threads that passed their load block; a thread at `setCurrent` has
loaded; a loaded thread is at `setCurrent` or `finished`; the name cell is
set exactly when some thread that loaded has finished; once both threads are
past their load blocks the runtime stays Ready; and two finished threads
include at least one loader. -/
def LmInv (name : String) (s : LmSys) : Prop :=
  (s.shared.loads = (if s.t1.didLoad then 1 else 0) + (if s.t2.didLoad then 1 else 0))
  ∧ (s.t1.pc = LmPC.setCurrent → s.t1.didLoad = true)
  ∧ (s.t2.pc = LmPC.setCurrent → s.t2.didLoad = true)
  ∧ (s.t1.didLoad = true → s.t1.pc = LmPC.setCurrent ∨ s.t1.pc = LmPC.finished)
  ∧ (s.t2.didLoad = true → s.t2.pc = LmPC.setCurrent ∨ s.t2.pc = LmPC.finished)
  ∧ (s.shared.current = some name ↔
      ((s.t1.pc = LmPC.finished ∧ s.t1.didLoad = true)
        ∨ (s.t2.pc = LmPC.finished ∧ s.t2.didLoad = true)))
  ∧ ((s.t1.pc = LmPC.setCurrent ∨ s.t1.pc = LmPC.finished)
      → (s.t2.pc = LmPC.setCurrent ∨ s.t2.pc = LmPC.finished)
      → s.shared.ready = true)
  ∧ (s.t1.pc = LmPC.finished → s.t2.pc = LmPC.finished
      → (s.t1.didLoad = true ∨ s.t2.didLoad = true))

/-- Thread-swapped system state. -/
def lmSwap (s : LmSys) : LmSys :=
  { shared := s.shared, t1 := s.t2, t2 := s.t1 }

theorem lmInv_swap {name : String} {s : LmSys} (h : LmInv name s) :
    LmInv name (lmSwap s) := by
  obtain ⟨h1, h2, h3, h4, h5, h6, h7, h8⟩ := h
  refine ⟨by simp [lmSwap]; omega, h3, h2, h5, h4, ?_, ?_, ?_⟩
  · simpa [lmSwap, or_comm] using h6
  · intro ha hb
    exact h7 hb ha
  · intro ha hb
    exact (h8 hb ha).symm

theorem lmStepSys_false (name : String) (s : LmSys) :
    lmStepSys name s false = lmSwap (lmStepSys name (lmSwap s) true) := rfl

theorem lmSwap_swap (s : LmSys) : lmSwap (lmSwap s) = s := rfl

theorem lmInv_step_t1 (name : String) (s : LmSys) (h : LmInv name s) :
    LmInv name (lmStepSys name s true) := by
  obtain ⟨h1, h2, h3, h4, h5, h6, h7, h8⟩ := h
  cases hpc : s.t1.pc with
  | fastPath =>
      by_cases hc : s.shared.current = some name ∧ s.shared.ready = true
      · have hdid2 : s.t2.pc = LmPC.finished ∧ s.t2.didLoad = true := by
          rcases h6.mp hc.1 with ⟨hf, _⟩ | hok
          · rw [hpc] at hf
            exact absurd hf (by simp)
          · exact hok
        have hstep : lmStepSys name s true
            = { shared := s.shared, t1 := { s.t1 with pc := LmPC.finished }, t2 := s.t2 } := by
          simp [lmStepSys, lmStep, hpc, hc]
        rw [hstep]
        refine ⟨h1, ?_, h3, ?_, h5, ?_, ?_, ?_⟩
        · intro hx
          exact absurd hx (by simp)
        · intro _
          exact Or.inr rfl
        · exact iff_of_true hc.1 (Or.inr hdid2)
        · intro _ _
          exact hc.2
        · intro _ _
          exact Or.inr hdid2.2
      · have hstep : lmStepSys name s true
            = { shared := s.shared, t1 := { s.t1 with pc := LmPC.registryGet }, t2 := s.t2 } := by
          simp only [lmStepSys, lmStep, hpc, if_true]
          rw [if_neg hc]
        rw [hstep]
        have hd1 : s.t1.didLoad = false := by
          cases hd : s.t1.didLoad
          · rfl
          · rcases h4 hd with hx | hx <;> rw [hpc] at hx <;> exact absurd hx (by simp)
        rw [hpc] at h6
        simp only [false_and, reduceCtorEq, false_or] at h6
        refine ⟨h1, ?_, h3, ?_, h5, ?_, ?_, ?_⟩
        · intro hx
          exact absurd hx (by simp)
        · intro hd
          rw [hd1] at hd
          exact absurd hd (by simp)
        · simpa using h6
        · intro hx
          rcases hx with hx | hx <;> exact absurd hx (by simp)
        · intro hx
          exact absurd hx (by simp)
  | registryGet =>
      have hstep : lmStepSys name s true
          = { shared := s.shared, t1 := { s.t1 with pc := LmPC.unloadOld }, t2 := s.t2 } := by
        simp [lmStepSys, lmStep, hpc]
      rw [hstep]
      have hd1 : s.t1.didLoad = false := by
        cases hd : s.t1.didLoad
        · rfl
        · rcases h4 hd with hx | hx <;> rw [hpc] at hx <;> exact absurd hx (by simp)
      rw [hpc] at h6
      simp only [false_and, reduceCtorEq, false_or] at h6
      refine ⟨h1, ?_, h3, ?_, h5, ?_, ?_, ?_⟩
      · intro hx
        exact absurd hx (by simp)
      · intro hd
        rw [hd1] at hd
        exact absurd hd (by simp)
      · simpa using h6
      · intro hx
        rcases hx with hx | hx <;> exact absurd hx (by simp)
      · intro hx
        exact absurd hx (by simp)
  | unloadOld =>
      have hstep : lmStepSys name s true
          = { shared := if s.shared.ready then { s.shared with ready := false } else s.shared,
              t1 := { s.t1 with pc := LmPC.loadNew }, t2 := s.t2 } := by
        simp [lmStepSys, lmStep, hpc]
      rw [hstep]
      have hd1 : s.t1.didLoad = false := by
        cases hd : s.t1.didLoad
        · rfl
        · rcases h4 hd with hx | hx <;> rw [hpc] at hx <;> exact absurd hx (by simp)
      rw [hpc] at h6
      simp only [false_and, reduceCtorEq, false_or] at h6
      have hcur : (if s.shared.ready then { s.shared with ready := false } else s.shared).current
          = s.shared.current := by
        split <;> rfl
      have hloads : (if s.shared.ready then { s.shared with ready := false } else s.shared).loads
          = s.shared.loads := by
        split <;> rfl
      refine ⟨?_, ?_, h3, ?_, h5, ?_, ?_, ?_⟩
      · simpa [hloads] using h1
      · intro hx
        exact absurd hx (by simp)
      · intro hd
        rw [hd1] at hd
        exact absurd hd (by simp)
      · rw [hcur]
        simpa using h6
      · intro hx
        rcases hx with hx | hx <;> exact absurd hx (by simp)
      · intro hx
        exact absurd hx (by simp)
  | loadNew =>
      have hstep : lmStepSys name s true
          = { shared := { s.shared with ready := true, loads := s.shared.loads + 1 },
              t1 := { pc := LmPC.setCurrent, didLoad := true }, t2 := s.t2 } := by
        simp [lmStepSys, lmStep, hpc]
      rw [hstep]
      have hd1 : s.t1.didLoad = false := by
        cases hd : s.t1.didLoad
        · rfl
        · rcases h4 hd with hx | hx <;> rw [hpc] at hx <;> exact absurd hx (by simp)
      rw [hpc] at h6
      simp only [false_and, reduceCtorEq, false_or] at h6
      rw [hd1] at h1
      refine ⟨?_, ?_, h3, ?_, h5, ?_, ?_, ?_⟩
      · cases hd2 : s.t2.didLoad <;> simp [hd2] at h1 ⊢ <;> omega
      · intro _
        rfl
      · intro _
        exact Or.inl rfl
      · simpa using h6
      · intro _ _
        rfl
      · intro hx
        exact absurd hx (by simp)
  | setCurrent =>
      have hstep : lmStepSys name s true
          = { shared := { s.shared with current := some name },
              t1 := { s.t1 with pc := LmPC.finished }, t2 := s.t2 } := by
        simp [lmStepSys, lmStep, hpc]
      rw [hstep]
      have hd1 : s.t1.didLoad = true := h2 hpc
      refine ⟨h1, ?_, h3, ?_, h5, ?_, ?_, ?_⟩
      · intro hx
        exact absurd hx (by simp)
      · intro _
        exact Or.inr rfl
      · exact iff_of_true rfl (Or.inl ⟨rfl, hd1⟩)
      · intro _ hb
        exact h7 (Or.inl hpc) hb
      · intro _ _
        exact Or.inl hd1
  | finished =>
      have hstep : lmStepSys name s true
          = { shared := s.shared, t1 := s.t1, t2 := s.t2 } := by
        simp [lmStepSys, lmStep, hpc]
      rw [hstep]
      exact ⟨h1, h2, h3, h4, h5, h6, h7, h8⟩

theorem lmInv_init (name : String) : LmInv name lmInit := by
  refine ⟨rfl, ?_, ?_, ?_, ?_, ?_, ?_, ?_⟩ <;> simp [lmInit]

theorem lmInv_step (name : String) (s : LmSys) (who : Bool) (h : LmInv name s) :
    LmInv name (lmStepSys name s who) := by
  cases who
  · rw [lmStepSys_false]
    exact lmInv_swap (lmInv_step_t1 name (lmSwap s) (lmInv_swap h))
  · exact lmInv_step_t1 name s h

theorem lmInv_run (name : String) (sched : List Bool) (s : LmSys) (h : LmInv name s) :
    LmInv name (lmRun name sched s) := by
  induction sched generalizing s with
  | nil => exact h
  | cons who rest ih => exact ih _ (lmInv_step name s who h)

/-- C2, amended: the unload, load and selected-name update of
`AppState::load_model` are separate writer-locked critical sections, not one
atomic section, and two concurrent callers for the same fresh name may each
call `load()`; still, in every interleaving of the two callers' atomic
blocks in which both run to completion, the final state has the runtime
Ready, the selected-name cell set to the requested name, and `load()` was
called at least once and at most twice. -/
theorem c2_both_finish_ready (name : String) (sched : List Bool)
    (hf1 : (lmRun name sched lmInit).t1.pc = LmPC.finished)
    (hf2 : (lmRun name sched lmInit).t2.pc = LmPC.finished) :
    (lmRun name sched lmInit).shared.ready = true
    ∧ (lmRun name sched lmInit).shared.current = some name
    ∧ 1 ≤ (lmRun name sched lmInit).shared.loads
    ∧ (lmRun name sched lmInit).shared.loads ≤ 2 := by
  obtain ⟨i1, i2, i3, i4, i5, i6, i7, i8⟩ := lmInv_run name sched lmInit (lmInv_init name)
  have hdid := i8 hf1 hf2
  refine ⟨i7 (Or.inr hf1) (Or.inr hf2), ?_, ?_, ?_⟩
  · refine i6.mpr ?_
    rcases hdid with hd | hd
    · exact Or.inl ⟨hf1, hd⟩
    · exact Or.inr ⟨hf2, hd⟩
  · rw [i1]
    rcases hdid with hd | hd <;> simp [hd]
  · rw [i1]
    split <;> split <;> omega

/-- C2, witness for the amended theorem: the double-load interleaving runs
both callers to completion and ends Ready with the name selected and two
load() calls. -/
theorem c2_witness :
    (lmRun "A" [true, false, true, true, true, true, false, false, false, false]
        lmInit).shared.ready = true
    ∧ (lmRun "A" [true, false, true, true, true, true, false, false, false, false]
        lmInit).shared.current = some "A"
    ∧ 1 ≤ (lmRun "A" [true, false, true, true, true, true, false, false, false, false]
        lmInit).shared.loads
    ∧ (lmRun "A" [true, false, true, true, true, true, false, false, false, false]
        lmInit).shared.loads ≤ 2 :=
  c2_both_finish_ready "A" [true, false, true, true, true, true, false, false, false, false]
    rfl rfl
